import Mathlib

/-!
# OpenTranscriber segmentation core: a shallow embedding

This file embeds the algorithmic core of `src/app.js` (class `OpenTranscriber`)
in Lean 4: the silence segmenter, the pitch estimator, the 1-D k-means speaker
clusterer, the VAD feature segmenter, the segmentation orchestrator and the
undo/redo history manager, and proves the specification's testable properties
about them.

Modelling conventions:
* JavaScript numbers are modelled as `ℚ` (the concrete inputs used in the
  theorems below take exact values, where float and rational arithmetic agree);
  `Math.floor` is `Int.floor`, `Math.round` is Mathlib's `round`
  (`round x = ⌊x + 1/2⌋`, which matches JS half-up rounding on both signs).
* The sample buffer is a `List ℚ` plus a rational sample rate.
* JS arrays pushed at the tail and shifted at the head are `List`s with
  `l ++ [x]` and `l.drop 1`.
* The cooperative-yield stride (`i % 100000 === 0` in the silence scan) is kept
  as an explicit parameter `stride`, instantiated with `100000` to recover the
  source function; the progress values handed to the callback are collected in
  a log list returned next to the segments.
-/

namespace OpenTranscriber

/-- A provisional segment as produced by the segmentation strategies
(`{start, end, speaker, f0}` in `app.js`; `end` is a Lean keyword, so the
field is named `stop`). -/
structure Seg where
  start : ℚ
  stop : ℚ
  speaker : String
  f0 : Option ℚ
deriving DecidableEq, Repr

/-- The decoded audio buffer: channel-0 samples plus the sample rate
(`this.audioBuffer.getChannelData(0)` / `this.audioBuffer.sampleRate`). -/
structure AudioBuffer where
  samples : List ℚ
  sampleRate : ℚ
deriving DecidableEq, Repr

/-- The UI parameter record assembled by `autoSegment` (lines 988-996).
`pauseTolerance` is in milliseconds, exactly as stored in the JS object. -/
structure Params where
  silenceThreshold : ℚ
  minSegmentDuration : ℚ
  pauseTolerance : ℚ
  numSpeakers : ℕ
  f0Min : ℚ
  f0Max : ℚ
  f0Confidence : ℚ
deriving DecidableEq, Repr

/-- The mutable locals of the `segmentBySilence` scan loop (lines 1085-1088),
plus the log of values handed to the progress callback. -/
structure SilState where
  segs : List Seg
  progressLog : List ℚ
  inSpeech : Bool
  segmentStart : ℚ
  silenceStart : ℚ
deriving DecidableEq, Repr

/-- One iteration of the `segmentBySilence` loop body (lines 1090-1120) at
sample index `i` with sample value `x`.  `len` is `channelData.length` and
`stride` the yield granularity (100000 in the source). -/
def silStep (len : ℕ) (sr threshold minDuration pauseTolerance : ℚ) (stride : ℕ)
    (st : SilState) (i : ℕ) (x : ℚ) : SilState :=
  let time : ℚ := (i : ℚ) / sr
  let amplitude := |x|
  let st1 :=
    if 0 < stride ∧ i % stride = 0 then
      { st with progressLog :=
          st.progressLog ++ [((round ((i : ℚ) / (len : ℚ) * 100) : ℤ) : ℚ)] }
    else st
  if amplitude > threshold then
    { st1 with
        segmentStart := if st1.inSpeech then st1.segmentStart else time
        inSpeech := true
        silenceStart := time }
  else
    if st1.inSpeech = true ∧ time - st1.silenceStart > pauseTolerance then
      let duration := st1.silenceStart - st1.segmentStart
      { st1 with
          segs :=
            if duration ≥ minDuration then
              st1.segs ++ [{ start := st1.segmentStart, stop := st1.silenceStart,
                             speaker := "spk1", f0 := none }]
            else st1.segs
          inSpeech := false }
    else st1

/-- The `for` loop of `segmentBySilence`, scanning the samples left to right
starting at index `i`. -/
def silScan (len : ℕ) (sr threshold minDuration pauseTolerance : ℚ) (stride : ℕ)
    (i : ℕ) (st : SilState) : List ℚ → SilState
  | [] => st
  | x :: xs =>
      silScan len sr threshold minDuration pauseTolerance stride (i + 1)
        (silStep len sr threshold minDuration pauseTolerance stride st i x) xs

/-- `segmentBySilence` (lines 1078-1137) with the yield stride made explicit.
Returns the segment list together with the log of progress-callback values. -/
def segmentBySilenceWith (stride : ℕ) (buf : AudioBuffer) (params : Params) :
    List Seg × List ℚ :=
  let sr := buf.sampleRate
  let threshold := params.silenceThreshold
  let minDuration := params.minSegmentDuration
  let pauseTolerance := params.pauseTolerance / 1000
  let len := buf.samples.length
  let final := silScan len sr threshold minDuration pauseTolerance stride 0
    { segs := [], progressLog := [], inSpeech := false,
      segmentStart := 0, silenceStart := 0 } buf.samples
  let segs :=
    if final.inSpeech then
      let duration := (len : ℚ) / sr - final.segmentStart
      if duration ≥ minDuration then
        final.segs ++ [{ start := final.segmentStart, stop := (len : ℚ) / sr,
                         speaker := "spk1", f0 := none }]
      else final.segs
    else final.segs
  (segs, final.progressLog)

/-- `segmentBySilence` as in the source: yield stride fixed at 100000
(line 1094). -/
def segmentBySilence (buf : AudioBuffer) (params : Params) : List Seg × List ℚ :=
  segmentBySilenceWith 100000 buf params

example :
    (segmentBySilence ⟨[1, 1, 1, 0, 0, 0], 1⟩
      ⟨1/2, 1, 500, 2, 75, 300, 1/4⟩).1 =
      [{ start := 0, stop := 2, speaker := "spk1", f0 := none }] := by
  norm_num [segmentBySilence, segmentBySilenceWith, silScan, silStep]

/-- JavaScript `Array.prototype.slice(a, b)`: negative indices count from the
end, indices are clamped to `[0, length]`, and the extracted range is
`[a', b')`. -/
def jsSlice (l : List ℚ) (a b : ℤ) : List ℚ :=
  let len : ℤ := l.length
  let a' := if a < 0 then max (len + a) 0 else min a len
  let b' := if b < 0 then max (len + b) 0 else min b len
  (l.take b'.toNat).drop a'.toNat

/-- The inner loop of `extractF0` (lines 1253-1256): the unnormalized
autocorrelation sum `Σ segment[i] * segment[i+lag]` over `i <
segment.length - lag`. -/
def autocorrAt (segment : List ℚ) (lag : ℕ) : ℚ :=
  (((List.range (segment.length - lag)).map
    (fun i => segment.getD i 0 * segment.getD (i + lag) 0))).sum

/-- The candidate lags scanned by `extractF0` (line 1252): the integers in
`[minLag, min(maxLag, segment.length / 2))`, in increasing order.  (The JS
loop variable starts at `minLag`; lags are nonnegative in every reachable
call, since `minLag = ⌊sampleRate / f0Max⌋` with positive arguments.) -/
def f0Candidates (segLen : ℕ) (minLag maxLag : ℤ) : List ℕ :=
  (List.range segLen).filter
    (fun lag => minLag ≤ (lag : ℤ) ∧ (lag : ℤ) < maxLag ∧ 2 * lag < segLen)

/-- The `maxCorr`/`bestLag` accumulation of `extractF0` (lines 1249-1261):
`maxCorr` starts at `-Infinity` (modelled by `none`) and `bestLag` at `0`;
a lag strictly improving the correlation replaces both. -/
def bestLagScan (segment : List ℚ) (cands : List ℕ) : Option ℚ × ℕ :=
  cands.foldl
    (fun acc lag =>
      let corr := autocorrAt segment lag
      match acc.1 with
      | none => (some corr, lag)
      | some m => if corr > m then (some corr, lag) else acc)
    (none, 0)

/-- `extractF0` (lines 1239-1267): slice the buffer between the segment's
start/end times, reject fewer than 400 samples, scan candidate lags for the
maximal autocorrelation, and return `sampleRate / bestLag` when `bestLag > 0`. -/
def extractF0 (buf : AudioBuffer) (startTime endTime f0Min f0Max : ℚ) : Option ℚ :=
  let startSample := ⌊startTime * buf.sampleRate⌋
  let endSample := ⌊endTime * buf.sampleRate⌋
  let segment := jsSlice buf.samples startSample endSample
  if segment.length < 400 then none
  else
    let maxLag := ⌊buf.sampleRate / f0Min⌋
    let minLag := ⌊buf.sampleRate / f0Max⌋
    let best := bestLagScan segment (f0Candidates segment.length minLag maxLag)
    if best.2 > 0 then some (buf.sampleRate / (best.2 : ℚ)) else none

/-- `findNearestCluster` (lines 1306-1317): index of the first centroid at
minimal absolute distance (`minDist` starts at `Infinity`, modelled by
`none`; only a strictly smaller distance replaces the best index). -/
def findNearestCluster (value : ℚ) (centroids : List ℚ) : ℕ :=
  (centroids.enum.foldl
    (fun (acc : Option ℚ × ℕ) ic =>
      let dist := |value - ic.2|
      match acc.1 with
      | none => (some dist, ic.1)
      | some m => if dist < m then (some dist, ic.1) else acc)
    (none, 0)).2

/-- One round of the `kMeansClustering` iteration (lines 1279-1301): assign
every value to its nearest centroid (first index wins ties, exactly the
`findNearestCluster` rule), then move each centroid to the mean of its
assigned values, leaving it unchanged when no value was assigned. -/
def kMeansIter (values : List ℚ) (centroids : List ℚ) : List ℚ :=
  centroids.enum.map (fun ic =>
    let cluster := values.filter (fun v => findNearestCluster v centroids = ic.1)
    if cluster.length > 0 then cluster.sum / cluster.length else ic.2)

/-- `kMeansClustering` (lines 1269-1304): degenerate shortcut
`values.slice(0, k)` when there are fewer than `k` values; otherwise sort
ascending, seed `k` evenly spaced order statistics, and run 10 rounds. -/
def kMeansClustering (values : List ℚ) (k : ℕ) : List ℚ :=
  if values.length < k then values.take k
  else
    let sorted := values.insertionSort (· ≤ ·)
    let step := sorted.length / k
    let centroids := (List.range k).map
      (fun i => sorted.getD (min (i * step) (sorted.length - 1)) 0)
    (List.range 10).foldl (fun cs _ => kMeansIter values cs) centroids

/-- `segmentBySilenceAndF0` (lines 1139-1171): silence segmentation with the
progress halved, per-segment pitch extraction reporting `50 + round(50·i/n)`,
then k-means clustering of the non-null pitches and speaker relabelling. -/
def segmentBySilenceAndF0 (buf : AudioBuffer) (params : Params) :
    List Seg × List ℚ :=
  let first := segmentBySilence buf params
  let segs0 := first.1
  let log1 := first.2.map (· * (1/2))
  let n := segs0.length
  let withF0 := segs0.map (fun seg =>
    { seg with f0 := extractF0 buf seg.start seg.stop params.f0Min params.f0Max })
  let log2 := (List.range n).map
    (fun i : ℕ => 50 + ((round ((i : ℚ) / (n : ℚ) * 50) : ℤ) : ℚ))
  let f0Values := withF0.filterMap (fun s => s.f0)
  let segs :=
    if f0Values.length > 0 then
      let clusters := kMeansClustering f0Values params.numSpeakers
      withF0.map (fun seg =>
        match seg.f0 with
        | some f =>
            { seg with speaker := "spk" ++ toString (findNearestCluster f clusters + 1) }
        | none => seg)
    else withF0
  (segs, log1 ++ log2)

/-- A frame feature vector (lines 1189-1195). -/
structure Feat where
  time : ℚ
  energy : ℚ
  zcr : ℚ
  spectralCentroid : ℚ
  isVoiced : Bool
deriving DecidableEq, Repr

/-- `calculateEnergy` (lines 1319-1325): mean of squared samples. -/
def calculateEnergy (frame : List ℚ) : ℚ :=
  ((frame.map (fun x => x * x)).sum) / frame.length

/-- `calculateZCR` (lines 1327-1335): sign changes between consecutive
samples, divided by the frame length. -/
def calculateZCR (frame : List ℚ) : ℚ :=
  (((frame.zip frame.tail).filter
    (fun p => (p.2 ≥ 0 ∧ p.1 < 0) ∨ (p.2 < 0 ∧ p.1 ≥ 0))).length : ℚ) / frame.length

/-- `calculateSpectralCentroid` (lines 1337-1349): magnitude-weighted mean of
the per-bin frequency proxy `i * sampleRate / frame.length`. -/
def calculateSpectralCentroid (frame : List ℚ) (sampleRate : ℚ) : ℚ :=
  let weightedSum := (frame.enum.map
    (fun p => ((p.1 : ℚ) * sampleRate / frame.length) * |p.2|)).sum
  let s := (frame.map (fun x => |x|)).sum
  if s > 0 then weightedSum / s else 0

/-- The frame start indices of the VAD feature loop (line 1183): multiples of
`hopSize` with `i < length - frameSize` (strict), in increasing order. -/
def frameStarts (len frameSize hopSize : ℕ) : List ℕ :=
  (List.range len).filter (fun i => i % hopSize = 0 ∧ i + frameSize < len)

/-- The feature-extraction pass of `segmentByVADClustering` (lines 1176-1202):
25 ms frames every 10 ms hop (`Math.floor(sampleRate * 0.025)` and
`* 0.010`; the float constants are the exact decimals 1/40 and 1/100, which
agree with the JS doubles for every realistic sample rate), each frame
yielding a `Feat` with `isVoiced = energy > 0.01`. -/
def vadFeatures (buf : AudioBuffer) : List Feat :=
  let len := buf.samples.length
  let frameSize := (⌊buf.sampleRate / 40⌋).toNat
  let hopSize := (⌊buf.sampleRate / 100⌋).toNat
  (frameStarts len frameSize hopSize).map (fun i =>
    let frame := (buf.samples.drop i).take frameSize
    let energy := calculateEnergy frame
    { time := (i : ℚ) / buf.sampleRate
      energy := energy
      zcr := calculateZCR frame
      spectralCentroid := calculateSpectralCentroid frame buf.sampleRate
      isVoiced := energy > 0.01 })

/-- One step of the run-collection `forEach` of `segmentByVADClustering`
(lines 1209-1227): the accumulator is the emitted segments plus the open run
(start time and collected features), `none` when outside speech. -/
def vadStep (st : List Seg × Option (ℚ × List Feat)) (feat : Feat) :
    List Seg × Option (ℚ × List Feat) :=
  if feat.isVoiced then
    match st.2 with
    | none => (st.1, some (feat.time, [feat]))
    | some cur => (st.1, some (cur.1, cur.2 ++ [feat]))
  else
    match st.2 with
    | some cur =>
        if cur.2.length > 10 then
          (st.1 ++ [{ start := cur.1,
                      stop := ((cur.2.getLast?).map Feat.time).getD 0,
                      speaker := "spk1", f0 := none }], none)
        else (st.1, none)
    | none => (st.1, none)

/-- The run-collection phase of `segmentByVADClustering` over a feature
sequence: segments are voiced runs longer than 10 frames, closed by an
unvoiced frame; a run still open at the end of the sequence is never emitted. -/
def vadSegments (features : List Feat) : List Seg :=
  (features.foldl vadStep ([], none)).1

/-- `segmentByVADClustering` (lines 1173-1231).  The parameter record is
accepted but unused, as in the source.  Returns the segments and the progress
log `10, (10 + round(40·i/len)) at every 10000-stride frame start, 50, 100`. -/
def segmentByVADClustering (buf : AudioBuffer) (_params : Params) :
    List Seg × List ℚ :=
  let len := buf.samples.length
  let frameSize := (⌊buf.sampleRate / 40⌋).toNat
  let hopSize := (⌊buf.sampleRate / 100⌋).toNat
  let entries := ((frameStarts len frameSize hopSize).filter
    (fun i => i % 10000 = 0)).map
      (fun i : ℕ => 10 + ((round ((i : ℚ) / (len : ℚ) * 40) : ℤ) : ℚ))
  (vadSegments (vadFeatures buf), [10] ++ entries ++ [50, 100])

/-- The error surface of the orchestrator's `try`/`catch` (lines 1023-1075).
The specification names `InvalidParameters` and `ProcessingError`; the
modelled code paths are total, so runs always return `.ok`. -/
inductive SegError where
  | invalidParameters
  | processingError
deriving DecidableEq, Repr

/-- `runAutoSegmentation` (lines 1011-1076): dispatch on the strategy string;
an unrecognized strategy leaves the segment list empty.  No parameter
validation is performed anywhere on this path. -/
def runAutoSegmentation (strategy : String) (buf : AudioBuffer) (params : Params) :
    Except SegError (List Seg) :=
  Except.ok
    (match strategy with
     | "silence" => (segmentBySilence buf params).1
     | "silence_f0" => (segmentBySilenceAndF0 buf params).1
     | "vad_clustering" => (segmentByVADClustering buf params).1
     | "sliding_window" => (segmentBySilenceAndF0 buf params).1
     | _ => [])

/-- A segment record inside a history snapshot (lines 97-103): the fields
copied by `saveState`. -/
structure SnapSeg where
  id : ℕ
  start : ℚ
  stop : ℚ
  speaker : ℤ
  transcription : String
deriving DecidableEq, Repr

/-- A speaker entry inside a history snapshot (lines 104-107). -/
structure SpeakerEntry where
  id : ℤ
  name : String
deriving DecidableEq, Repr

/-- A history snapshot (lines 94-108).  The `timestamp` field (wall-clock
`Date.now()`) is outside the model; no claim inspects it. -/
structure Snapshot where
  action : String
  segments : List SnapSeg
  speakers : List SpeakerEntry
deriving DecidableEq, Repr

/-- A live segment (as stored in `this.segments`): the snapshot fields plus
the derived display color. -/
structure LiveSeg where
  id : ℕ
  start : ℚ
  stop : ℚ
  speaker : ℤ
  transcription : String
  color : Option (String × String)
deriving DecidableEq, Repr

/-- A speaker track, restricted to the fields the history manager touches
(`speakerNum` and `name`). -/
structure SpeakerTrack where
  speakerNum : ℤ
  name : String
deriving DecidableEq, Repr

/-- The application state seen by the history manager: the live segments and
speaker tracks, and the two history stacks (top of stack = end of list, as JS
`push`/`pop` work at the array tail and `shift` at the head). -/
structure AppState where
  segments : List LiveSeg
  speakerTracks : List SpeakerTrack
  undoStack : List Snapshot
  redoStack : List Snapshot
deriving DecidableEq, Repr

/-- `this.maxHistorySize` (line 60). -/
def maxHistorySize : ℕ := 50

/-- `this.speakerColors` (lines 63-72): eight `(bg, border)` pairs. -/
def speakerColors : List (String × String) :=
  [("rgba(239, 83, 80, 0.5)", "#ef5350"),
   ("rgba(102, 187, 106, 0.5)", "#66bb6a"),
   ("rgba(66, 165, 245, 0.5)", "#42a5f5"),
   ("rgba(255, 238, 88, 0.5)", "#ffee58"),
   ("rgba(171, 71, 188, 0.5)", "#ab47bc"),
   ("rgba(255, 167, 38, 0.5)", "#ffa726"),
   ("rgba(38, 166, 154, 0.5)", "#26a69a"),
   ("rgba(236, 64, 122, 0.5)", "#ec407a")]

/-- `this.speakerColors[(speaker - 1) % this.speakerColors.length]`
(line 208): the JS `%` is the truncated remainder, and a negative index reads
`undefined` (modelled as `none`). -/
def colorFor (speaker : ℤ) : Option (String × String) :=
  let j := Int.tmod (speaker - 1) 8
  if j < 0 then none else speakerColors.get? j.toNat

/-- The deep-copy capture of the current state performed identically at
lines 94-108, 134-148 and 169-183. -/
def mkSnapshot (st : AppState) (action : String) : Snapshot :=
  { action := action
    segments := st.segments.map (fun s =>
      { id := s.id, start := s.start, stop := s.stop,
        speaker := s.speaker, transcription := s.transcription })
    speakers := st.speakerTracks.map (fun t =>
      { id := t.speakerNum, name := t.name }) }

/-- `saveState` (lines 93-122): push the capture, evict the head when the
stack exceeds `maxHistorySize`, clear the redo stack. -/
def saveState (st : AppState) (actionName : String) : AppState :=
  let state := mkSnapshot st actionName
  let u := st.undoStack ++ [state]
  let u := if u.length > maxHistorySize then u.drop 1 else u
  { st with undoStack := u, redoStack := [] }

/-- `this.speakerTracks.find(t => t.speakerNum === spk.id)` followed by a
name assignment (lines 212-218): update the first matching track only. -/
def updateFirstTrack : List SpeakerTrack → SpeakerEntry → List SpeakerTrack
  | [], _ => []
  | t :: ts, spk =>
      if t.speakerNum = spk.id then { t with name := spk.name } :: ts
      else t :: updateFirstTrack ts spk

/-- `restoreState` (lines 197-224): rebuild the live segments from the
snapshot (recomputing the color), and write the snapshot's speaker names onto
the matching live tracks. -/
def restoreState (st : AppState) (state : Snapshot) : AppState :=
  let segments := state.segments.map (fun s =>
    ({ id := s.id, start := s.start, stop := s.stop, speaker := s.speaker,
       transcription := s.transcription, color := colorFor s.speaker } : LiveSeg))
  let tracks := state.speakers.foldl updateFirstTrack st.speakerTracks
  { st with segments := segments, speakerTracks := tracks }

/-- The user-visible outcome of an undo/redo call (the `showToast` signals of
lines 129, 156, 164, 191). -/
inductive HistSignal where
  | nothingToUndo
  | nothingToRedo
  | undone (action : String)
  | redone
deriving DecidableEq, Repr

/-- `undo` (lines 127-157): no-op signal on an empty stack; otherwise capture
the current state onto the redo stack, pop the undo stack and restore. -/
def undo (st : AppState) : AppState × HistSignal :=
  match st.undoStack.getLast? with
  | none => (st, .nothingToUndo)
  | some previousState =>
      let currentState := mkSnapshot st "before_undo"
      let st1 := { st with redoStack := st.redoStack ++ [currentState],
                           undoStack := st.undoStack.dropLast }
      (restoreState st1 previousState, .undone previousState.action)

/-- `redo` (lines 162-192): the mirror of `undo`.  Note the source pushes the
current capture onto the undo stack without the `maxHistorySize` trim. -/
def redo (st : AppState) : AppState × HistSignal :=
  match st.redoStack.getLast? with
  | none => (st, .nothingToRedo)
  | some redoState =>
      let currentState := mkSnapshot st "before_redo"
      let st1 := { st with undoStack := st.undoStack ++ [currentState],
                           redoStack := st.redoStack.dropLast }
      (restoreState st1 redoState, .redone)

/-- `autoSegment` (lines 985-1009): capture the pre-segmentation state with
`saveState('auto-segmentation')`, then run the selected strategy.  (The
materialization of the returned segments into the UI store by
`createSegment` is outside this model; the claims concern the capture
ordering and the error surface.) -/
def autoSegment (st : AppState) (strategy : String) (buf : AudioBuffer)
    (params : Params) : AppState × Except SegError (List Seg) :=
  let st1 := saveState st "auto-segmentation"
  (st1, runAutoSegmentation strategy buf params)

/-- The states reachable from an empty history by captures, undos, redos and
arbitrary mutations of the live (non-stack) state. -/
inductive Reachable : AppState → Prop
  | init (segments : List LiveSeg) (speakerTracks : List SpeakerTrack) :
      Reachable ⟨segments, speakerTracks, [], []⟩
  | save {st : AppState} (label : String) :
      Reachable st → Reachable (saveState st label)
  | undoStep {st : AppState} : Reachable st → Reachable (undo st).1
  | redoStep {st : AppState} : Reachable st → Reachable (redo st).1
  | mutate {st : AppState} (segments : List LiveSeg)
      (speakerTracks : List SpeakerTrack) : Reachable st →
      Reachable { st with segments := segments, speakerTracks := speakerTracks }

/-!
## The silence scan without its progress log

`silCore` projects away the progress log; the scan's segment output is a
function of this projection alone, which is what makes the output independent
of the yield stride (C2) and lets the segment invariants ignore the log.
-/

/-- The state of the silence scan minus the progress log:
`(segs, inSpeech, segmentStart, silenceStart)`. -/
def silCore (st : SilState) : List Seg × Bool × ℚ × ℚ :=
  (st.segs, st.inSpeech, st.segmentStart, st.silenceStart)

/-- The loop body of the silence scan on the projected state. -/
def silBodyCore (sr threshold minDuration pauseTolerance : ℚ)
    (c : List Seg × Bool × ℚ × ℚ) (i : ℕ) (x : ℚ) : List Seg × Bool × ℚ × ℚ :=
  let time : ℚ := (i : ℚ) / sr
  let amplitude := |x|
  if amplitude > threshold then
    (c.1, true, if c.2.1 then c.2.2.1 else time, time)
  else
    if c.2.1 = true ∧ time - c.2.2.2 > pauseTolerance then
      (if c.2.2.2 - c.2.2.1 ≥ minDuration then
          c.1 ++ [{ start := c.2.2.1, stop := c.2.2.2, speaker := "spk1", f0 := none }]
        else c.1,
       false, c.2.2.1, c.2.2.2)
    else c

/-- The full scan on the projected state. -/
def silScanCore (sr threshold minDuration pauseTolerance : ℚ) (i : ℕ)
    (c : List Seg × Bool × ℚ × ℚ) : List ℚ → List Seg × Bool × ℚ × ℚ
  | [] => c
  | x :: xs =>
      silScanCore sr threshold minDuration pauseTolerance (i + 1)
        (silBodyCore sr threshold minDuration pauseTolerance c i x) xs

lemma silCore_silStep (len : ℕ) (sr threshold minDuration pauseTolerance : ℚ)
    (stride : ℕ) (st : SilState) (i : ℕ) (x : ℚ) :
    silCore (silStep len sr threshold minDuration pauseTolerance stride st i x) =
      silBodyCore sr threshold minDuration pauseTolerance (silCore st) i x := by
  by_cases hc : 0 < stride ∧ i % stride = 0 <;>
    simp only [silStep, silBodyCore, silCore, hc, if_true, if_false] <;>
    split_ifs <;> simp_all

lemma silCore_silScan (len : ℕ) (sr threshold minDuration pauseTolerance : ℚ)
    (stride : ℕ) :
    ∀ (xs : List ℚ) (i : ℕ) (st : SilState),
      silCore (silScan len sr threshold minDuration pauseTolerance stride i st xs) =
        silScanCore sr threshold minDuration pauseTolerance i (silCore st) xs := by
  intro xs
  induction xs with
  | nil => intro i st; rfl
  | cons x xs ih =>
      intro i st
      rw [silScan, silScanCore, ih, silCore_silStep]

/-- C2: the Silence Segmenter's segment output is a deterministic function of
the buffer and the parameters, and does not depend on the cooperative-yield
stride: any two yield granularities give the same segment list
(`segmentBySilence` is `segmentBySilenceWith 100000`). -/
theorem segmentBySilence_deterministic (stride₁ stride₂ : ℕ)
    (buf : AudioBuffer) (params : Params) :
    (segmentBySilenceWith stride₁ buf params).1 =
      (segmentBySilenceWith stride₂ buf params).1 := by
  have h₁ := silCore_silScan buf.samples.length buf.sampleRate
    params.silenceThreshold params.minSegmentDuration (params.pauseTolerance / 1000)
    stride₁ buf.samples 0
    { segs := [], progressLog := [], inSpeech := false,
      segmentStart := 0, silenceStart := 0 }
  have h₂ := silCore_silScan buf.samples.length buf.sampleRate
    params.silenceThreshold params.minSegmentDuration (params.pauseTolerance / 1000)
    stride₂ buf.samples 0
    { segs := [], progressLog := [], inSpeech := false,
      segmentStart := 0, silenceStart := 0 }
  have h := h₁.trans h₂.symm
  simp only [silCore, Prod.mk.injEq] at h
  obtain ⟨hs, hi, hg, _⟩ := h
  simp only [segmentBySilenceWith, hs, hi, hg]

/-!
## C1: emitted silence segments respect the duration filter
-/

/-- The part of the scan invariant used for C1: every emitted segment passed
the duration filter and has ordered endpoints, and while in speech the open
segment's bounds are ordered and below the time reached so far. -/
def SilInv (sr minDuration bound : ℚ) (c : List Seg × Bool × ℚ × ℚ) : Prop :=
  (∀ s ∈ c.1, minDuration ≤ s.stop - s.start ∧ s.start ≤ s.stop) ∧
  (c.2.1 = true → c.2.2.1 ≤ c.2.2.2 ∧ c.2.2.2 ≤ bound / sr)

lemma silBodyCore_inv (sr threshold minDuration pauseTolerance : ℚ) (hsr : 0 < sr)
    (c : List Seg × Bool × ℚ × ℚ) (i : ℕ) (x : ℚ)
    (h : SilInv sr minDuration (i : ℚ) c) :
    SilInv sr minDuration ((i + 1 : ℕ) : ℚ)
      (silBodyCore sr threshold minDuration pauseTolerance c i x) := by
  obtain ⟨hsegs, hsp⟩ := h
  have hmono : (i : ℚ) / sr ≤ ((i + 1 : ℕ) : ℚ) / sr := by
    apply div_le_div_of_nonneg_right ?_ hsr.le
    · exact_mod_cast Nat.le_succ i
  by_cases h1 : |x| > threshold
  · rcases hb : c.2.1 with _ | _
    · simp only [silBodyCore, SilInv, if_pos h1, hb, Bool.false_eq_true, if_false]
      exact ⟨hsegs, fun _ => ⟨le_refl _, hmono⟩⟩
    · obtain ⟨hab, hbd⟩ := hsp hb
      simp only [silBodyCore, SilInv, if_pos h1, hb, if_true]
      exact ⟨hsegs, fun _ => ⟨hab.trans hbd, hmono⟩⟩
  · by_cases h2 : c.2.1 = true ∧ (i : ℚ) / sr - c.2.2.2 > pauseTolerance
    · obtain ⟨hab, hbd⟩ := hsp h2.1
      by_cases h3 : c.2.2.2 - c.2.2.1 ≥ minDuration
      · simp only [silBodyCore, SilInv, if_neg h1, if_pos h2, if_pos h3]
        refine ⟨?_, fun hf => by simp at hf⟩
        intro s hs
        rcases List.mem_append.1 hs with hs | hs
        · exact hsegs s hs
        · rcases List.mem_singleton.1 hs with rfl
          exact ⟨h3, hab⟩
      · simp only [silBodyCore, SilInv, if_neg h1, if_pos h2, if_neg h3]
        exact ⟨hsegs, fun hf => by simp at hf⟩
    · simp only [silBodyCore, SilInv, if_neg h1, if_neg h2]
      exact ⟨hsegs, fun hi => (hsp hi).imp id (fun hb => hb.trans hmono)⟩

lemma silScanCore_inv (sr threshold minDuration pauseTolerance : ℚ) (hsr : 0 < sr) :
    ∀ (xs : List ℚ) (i : ℕ) (c : List Seg × Bool × ℚ × ℚ),
      SilInv sr minDuration (i : ℚ) c →
      SilInv sr minDuration ((i + xs.length : ℕ) : ℚ)
        (silScanCore sr threshold minDuration pauseTolerance i c xs) := by
  intro xs
  induction xs with
  | nil => intro i c h; simpa using h
  | cons x xs ih =>
      intro i c h
      have hstep := silBodyCore_inv sr threshold minDuration pauseTolerance hsr c i x h
      have h2 := ih (i + 1) _ hstep
      rw [silScanCore]
      have hn : (i + 1) + xs.length = i + (x :: xs).length := by
        simp only [List.length_cons]; omega
      rwa [hn] at h2

/-- C1 (amended): the Silence Segmenter never emits a segment whose duration
`stop - start` is below `minSegmentDuration` (the filter is inclusive `≥`),
and endpoints are always ordered `start ≤ stop`; hence whenever
`minSegmentDuration` is positive, `start < stop` strictly.  (With
`minSegmentDuration = 0` a zero-length segment `stop = start` can be
emitted, so `end > start` does not hold for every parameter set; see the
counterexample.) -/
theorem segmentBySilence_duration_filter (buf : AudioBuffer) (params : Params)
    (hsr : 0 < buf.sampleRate) :
    ∀ s ∈ (segmentBySilence buf params).1,
      params.minSegmentDuration ≤ s.stop - s.start ∧ s.start ≤ s.stop ∧
        (0 < params.minSegmentDuration → s.start < s.stop) := by
  intro s hs
  have hcore := silCore_silScan buf.samples.length buf.sampleRate
    params.silenceThreshold params.minSegmentDuration (params.pauseTolerance / 1000)
    100000 buf.samples 0
    { segs := [], progressLog := [], inSpeech := false,
      segmentStart := 0, silenceStart := 0 }
  have hinv0 : SilInv buf.sampleRate params.minSegmentDuration ((0 : ℕ) : ℚ)
      (silCore { segs := [], progressLog := [], inSpeech := false,
                 segmentStart := 0, silenceStart := 0 }) := by
    refine ⟨fun s hs => absurd hs (List.not_mem_nil s), fun h => ?_⟩
    simp [silCore] at h
  have hinv := silScanCore_inv buf.sampleRate params.silenceThreshold
    params.minSegmentDuration (params.pauseTolerance / 1000) hsr buf.samples 0 _ hinv0
  rw [← hcore] at hinv
  obtain ⟨hsegs, hsp⟩ := hinv
  simp only [segmentBySilence, segmentBySilenceWith] at hs
  set fin := silScan buf.samples.length buf.sampleRate params.silenceThreshold
    params.minSegmentDuration (params.pauseTolerance / 1000) 100000 0
    { segs := [], progressLog := [], inSpeech := false,
      segmentStart := 0, silenceStart := 0 } buf.samples with hfin
  have hbase : ∀ t ∈ fin.segs,
      params.minSegmentDuration ≤ t.stop - t.start ∧ t.start ≤ t.stop ∧
        (0 < params.minSegmentDuration → t.start < t.stop) := by
    intro t ht
    obtain ⟨hd, ho⟩ := hsegs t ht
    exact ⟨hd, ho, fun hpos => by linarith⟩
  split_ifs at hs with h1 h2
  · rcases List.mem_append.1 hs with hs | hs
    · exact hbase s hs
    · rcases List.mem_singleton.1 hs with rfl
      obtain ⟨hab, hbd⟩ := hsp h1
      have hord : fin.segmentStart ≤ (buf.samples.length : ℚ) / buf.sampleRate := by
        have : ((0 + buf.samples.length : ℕ) : ℚ) = (buf.samples.length : ℚ) := by
          push_cast; ring
        rw [this] at hbd
        exact hab.trans hbd
      exact ⟨h2, hord, fun hpos => by simp only; linarith⟩
  · exact hbase s hs
  · exact hbase s hs

/-- C1 witness: a concrete run (three loud samples then silence at 1 Hz,
threshold 1/2, minimum duration 1 s, pause tolerance 500 ms) emits the
segment `[0, 2]`, and the theorem's guarantees hold for it. -/
theorem segmentBySilence_duration_filter_witness :
    (0 : ℚ) < (1 : ℚ) ∧
    ({ start := 0, stop := 2, speaker := "spk1", f0 := none } : Seg) ∈
      (segmentBySilence ⟨[1, 1, 1, 0, 0, 0], 1⟩ ⟨1/2, 1, 500, 2, 75, 300, 1/4⟩).1 ∧
    ((1 : ℚ) ≤ 2 - 0 ∧ (0 : ℚ) ≤ 2 ∧ ((0 : ℚ) < 1 → (0 : ℚ) < 2)) := by
  have hmem : ({ start := 0, stop := 2, speaker := "spk1", f0 := none } : Seg) ∈
      (segmentBySilence ⟨[1, 1, 1, 0, 0, 0], 1⟩ ⟨1/2, 1, 500, 2, 75, 300, 1/4⟩).1 := by
    have h : (segmentBySilence ⟨[1, 1, 1, 0, 0, 0], 1⟩
        ⟨1/2, 1, 500, 2, 75, 300, 1/4⟩).1 =
        [{ start := 0, stop := 2, speaker := "spk1", f0 := none }] := by
      norm_num [segmentBySilence, segmentBySilenceWith, silScan, silStep]
    rw [h]
    exact List.mem_singleton.2 rfl
  exact ⟨by norm_num, hmem,
    segmentBySilence_duration_filter ⟨[1, 1, 1, 0, 0, 0], 1⟩
      ⟨1/2, 1, 500, 2, 75, 300, 1/4⟩ (by norm_num) _ hmem⟩

/-- C1 counterexample: with `minSegmentDuration = 0` (a parameter the UI
accepts), a single loud sample followed by silence makes `segmentBySilence`
emit the zero-length segment `[0, 0]`, i.e. a segment with `end <= start` —
refuting "never emits a segment with end <= start" for every parameter set. -/
theorem segmentBySilence_zero_length_counterexample :
    (segmentBySilence ⟨[1, 0, 0, 0], 1⟩ ⟨1/2, 0, 500, 2, 75, 300, 1/4⟩).1 =
      [{ start := 0, stop := 0, speaker := "spk1", f0 := none }] ∧
    ∃ s ∈ (segmentBySilence ⟨[1, 0, 0, 0], 1⟩ ⟨1/2, 0, 500, 2, 75, 300, 1/4⟩).1,
      s.stop ≤ s.start := by
  have h : (segmentBySilence ⟨[1, 0, 0, 0], 1⟩ ⟨1/2, 0, 500, 2, 75, 300, 1/4⟩).1 =
      [{ start := 0, stop := 0, speaker := "spk1", f0 := none }] := by
    norm_num [segmentBySilence, segmentBySilenceWith, silScan, silStep]
  refine ⟨h, ⟨{ start := 0, stop := 0, speaker := "spk1", f0 := none }, ?_, le_refl _⟩⟩
  rw [h]
  exact List.mem_singleton.2 rfl

/-!
## C9: the k-means degenerate branch
-/

/-- C9 (amended): with fewer input values than `k`, `kMeansClustering`
returns `values.slice(0, k)` — which is the whole input, of length
`values.length < k`, not a sequence of `k` centroids — and performs no
clustering iteration. -/
theorem kMeansClustering_degenerate (values : List ℚ) (k : ℕ)
    (h : values.length < k) :
    kMeansClustering values k = values ∧
      (kMeansClustering values k).length = values.length := by
  have ht : values.take k = values := List.take_of_length_le (le_of_lt h)
  constructor <;> simp [kMeansClustering, h, ht]

/-- C9 witness: the degenerate theorem applied to one value and `k = 2`. -/
theorem kMeansClustering_degenerate_witness :
    ([(100 : ℚ)].length < 2) ∧
      (kMeansClustering [(100 : ℚ)] 2 = [100] ∧
        (kMeansClustering [(100 : ℚ)] 2).length = [(100 : ℚ)].length) :=
  ⟨by simp, kMeansClustering_degenerate [(100 : ℚ)] 2 (by simp)⟩

/-- C9 counterexample: clustering the single value `[100]` with `k = 2`
returns `[100]`, a centroid sequence of length `1`, not an ordered sequence
of `k = 2` values as the claim (via the data model) asserts. -/
theorem kMeansClustering_degenerate_counterexample :
    kMeansClustering [(100 : ℚ)] 2 = [100] ∧
      (kMeansClustering [(100 : ℚ)] 2).length ≠ 2 := by
  have h : kMeansClustering [(100 : ℚ)] 2 = [100] := by
    simp [kMeansClustering]
  exact ⟨h, by rw [h]; simp⟩

/-!
## C3: the orchestrator performs no parameter validation
-/

/-- The capture pushed by `saveState` always lands on top of the undo stack
(the overflow trim only evicts at the bottom). -/
lemma saveState_undoStack_getLast (st : AppState) (label : String) :
    (saveState st label).undoStack.getLast? = some (mkSnapshot st label) := by
  simp only [saveState]
  split_ifs with hlen
  · have h1 : 1 ≤ st.undoStack.length := by
      simp only [List.length_append, List.length_singleton, maxHistorySize] at hlen
      omega
    rw [List.drop_append_of_le_length h1]
    exact List.getLast?_concat _
  · exact List.getLast?_concat _

/-- C3 (amended): `runAutoSegmentation` never fails with `InvalidParameters`
(or any error): every strategy run returns `.ok`, even when required numeric
parameters are out of domain (e.g. `f0Max <= f0Min`); and `autoSegment`
captures the pre-run state onto the undo stack (a mutation) before the
strategy runs, regardless of parameter validity. -/
theorem runAutoSegmentation_no_validation (strategy : String)
    (buf : AudioBuffer) (params : Params) (st : AppState) :
    (∃ segs, runAutoSegmentation strategy buf params = Except.ok segs) ∧
    ((autoSegment st strategy buf params).1.undoStack.getLast? =
      some (mkSnapshot st "auto-segmentation")) := by
  constructor
  · exact ⟨_, rfl⟩
  · simp only [autoSegment]
    exact saveState_undoStack_getLast st "auto-segmentation"

/-- C3 counterexample: with `f0Max = f0Min = 100` (out of domain per the
specification) the orchestrator still runs the `silence_f0` strategy and
returns `.ok` — it does not fail with `InvalidParameters`. -/
theorem runAutoSegmentation_invalid_params_counterexample :
    runAutoSegmentation "silence_f0" ⟨[1, 1, 1, 0, 0, 0], 1⟩
        ⟨1/2, 1, 500, 2, 100, 100, 1/4⟩ =
      Except.ok [{ start := 0, stop := 2, speaker := "spk1", f0 := none }] ∧
    ∀ e : SegError,
      runAutoSegmentation "silence_f0" ⟨[1, 1, 1, 0, 0, 0], 1⟩
          ⟨1/2, 1, 500, 2, 100, 100, 1/4⟩ ≠ Except.error e := by
  have hpair : segmentBySilence ⟨[1, 1, 1, 0, 0, 0], 1⟩
      ⟨1/2, 1, 500, 2, 100, 100, 1/4⟩ =
      ([{ start := 0, stop := 2, speaker := "spk1", f0 := none }], [0]) := by
    norm_num [segmentBySilence, segmentBySilenceWith, silScan, silStep]
  have hf0 : extractF0 ⟨[1, 1, 1, 0, 0, 0], 1⟩ 0 2 100 100 = none := by
    norm_num [extractF0, jsSlice]
  have h : runAutoSegmentation "silence_f0" ⟨[1, 1, 1, 0, 0, 0], 1⟩
      ⟨1/2, 1, 500, 2, 100, 100, 1/4⟩ =
      Except.ok [{ start := 0, stop := 2, speaker := "spk1", f0 := none }] := by
    simp only [runAutoSegmentation, Except.ok.injEq]
    rw [segmentBySilenceAndF0, hpair]
    norm_num [hf0]
  exact ⟨h, fun e he => by rw [h] at he; exact Except.noConfusion he⟩

/-!
## C4: the pitch estimator
-/

/-- The single step of the `maxCorr`/`bestLag` accumulation. -/
def bestLagStep (segment : List ℚ) (acc : Option ℚ × ℕ) (lag : ℕ) : Option ℚ × ℕ :=
  let corr := autocorrAt segment lag
  match acc.1 with
  | none => (some corr, lag)
  | some m => if corr > m then (some corr, lag) else acc

lemma bestLagScan_eq_foldl (segment : List ℚ) (cands : List ℕ) :
    bestLagScan segment cands = cands.foldl (bestLagStep segment) (none, 0) := rfl

/-- Once the accumulator holds the correlation of its own best lag, the fold
keeps that invariant, never decreases the stored correlation, and dominates
every scanned candidate. -/
lemma bestLag_foldl_from_some (segment : List ℚ) :
    ∀ (cands : List ℕ) (m : ℚ) (bl : ℕ), m = autocorrAt segment bl →
      ∃ m' bl', cands.foldl (bestLagStep segment) (some m, bl) = (some m', bl') ∧
        m' = autocorrAt segment bl' ∧ m ≤ m' ∧ (bl' = bl ∨ bl' ∈ cands) ∧
        ∀ lag ∈ cands, autocorrAt segment lag ≤ m' := by
  intro cands
  induction cands with
  | nil =>
      intro m bl hm
      exact ⟨m, bl, rfl, hm, le_refl m, Or.inl rfl, by simp⟩
  | cons l cands ih =>
      intro m bl hm
      by_cases hgt : autocorrAt segment l > m
      · obtain ⟨m', bl', heq, hm', hle, hmem, hdom⟩ :=
          ih (autocorrAt segment l) l rfl
        refine ⟨m', bl', ?_, hm', le_of_lt (lt_of_lt_of_le hgt hle), ?_, ?_⟩
        · simpa [List.foldl_cons, bestLagStep, hgt] using heq
        · rcases hmem with h | h
          · exact Or.inr (h ▸ List.mem_cons_self l cands)
          · exact Or.inr (List.mem_cons_of_mem l h)
        · intro lag hlag
          rcases List.mem_cons.1 hlag with rfl | hlag
          · exact hle
          · exact hdom lag hlag
      · obtain ⟨m', bl', heq, hm', hle, hmem, hdom⟩ := ih m bl hm
        refine ⟨m', bl', ?_, hm', hle, ?_, ?_⟩
        · simpa [List.foldl_cons, bestLagStep, hgt] using heq
        · rcases hmem with h | h
          · exact Or.inl h
          · exact Or.inr (List.mem_cons_of_mem l h)
        · intro lag hlag
          rcases List.mem_cons.1 hlag with rfl | hlag
          · exact le_trans (not_lt.1 hgt) hle
          · exact hdom lag hlag

/-- On a nonempty candidate list, the best lag is one of the candidates and
its (unnormalized) autocorrelation dominates every candidate's. -/
lemma bestLagScan_max (segment : List ℚ) (cands : List ℕ) (h : cands ≠ []) :
    (bestLagScan segment cands).2 ∈ cands ∧
      ∀ lag ∈ cands,
        autocorrAt segment lag ≤
          autocorrAt segment (bestLagScan segment cands).2 := by
  rcases cands with _ | ⟨l, cands⟩
  · exact absurd rfl h
  · obtain ⟨m', bl', heq, hm', hle, hmem, hdom⟩ :=
      bestLag_foldl_from_some segment cands (autocorrAt segment l) l rfl
    have hrw : bestLagScan segment (l :: cands) = (some m', bl') := by
      rw [bestLagScan_eq_foldl]
      simpa [List.foldl_cons, bestLagStep] using heq
    rw [hrw]
    constructor
    · rcases hmem with h | h
      · exact h ▸ List.mem_cons_self l cands
      · exact List.mem_cons_of_mem l h
    · intro lag hlag
      rw [← hm']
      rcases List.mem_cons.1 hlag with rfl | hlag
      · exact hle
      · exact hdom lag hlag

/-- C4 (amended): `extractF0` returns `none` when the sliced segment has
fewer than 400 samples; otherwise it scans the candidate lags in
`[minLag, min(maxLag, length/2))` with `minLag = ⌊sampleRate / f0Max⌋` and
`maxLag = ⌊sampleRate / f0Min⌋`, selects the lag maximizing the unnormalized
autocorrelation sum, and returns `sampleRate / bestLag` whenever
`bestLag > 0` — with no requirement that the winning correlation be
positive (the accumulator starts at `-Infinity`, so the first scanned lag
always wins initially). -/
theorem extractF0_spec (buf : AudioBuffer) (startTime endTime f0Min f0Max : ℚ)
    (segment : List ℚ) (cands : List ℕ)
    (hseg : segment =
      jsSlice buf.samples ⌊startTime * buf.sampleRate⌋ ⌊endTime * buf.sampleRate⌋)
    (hcands : cands = f0Candidates segment.length
      ⌊buf.sampleRate / f0Max⌋ ⌊buf.sampleRate / f0Min⌋) :
    (segment.length < 400 → extractF0 buf startTime endTime f0Min f0Max = none) ∧
    (400 ≤ segment.length →
      (extractF0 buf startTime endTime f0Min f0Max =
        if 0 < (bestLagScan segment cands).2 then
          some (buf.sampleRate / ((bestLagScan segment cands).2 : ℚ))
        else none) ∧
      (cands = [] → (bestLagScan segment cands).2 = 0) ∧
      (cands ≠ [] →
        (bestLagScan segment cands).2 ∈ cands ∧
        ∀ lag ∈ cands,
          autocorrAt segment lag ≤
            autocorrAt segment (bestLagScan segment cands).2)) := by
  subst hseg
  subst hcands
  refine ⟨fun h => ?_, fun h => ⟨?_, fun hc => ?_, fun hc => bestLagScan_max _ _ hc⟩⟩
  · simp only [extractF0, if_pos h]
  · simp only [extractF0, if_neg (not_lt.2 h)]
  · rw [hc]
    rfl

/-- Slicing from 0 to any bound at or beyond the length returns the whole
list. -/
lemma jsSlice_all (l : List ℚ) (b : ℤ) (hb : (l.length : ℤ) ≤ b) :
    jsSlice l 0 b = l := by
  have hlen : (0 : ℤ) ≤ (l.length : ℤ) := Int.natCast_nonneg _
  simp only [jsSlice]
  rw [if_neg (by norm_num : ¬((0 : ℤ) < 0)), if_neg (not_lt.2 (le_trans hlen hb))]
  rw [min_eq_left hlen, min_eq_right hb]
  simp [Int.toNat_natCast]

/-- The all-ones buffer used as the C4 witness input. -/
def onesBuf : AudioBuffer := ⟨List.replicate 400 1, 400⟩

/-- C4 witness: on a 400-sample all-ones buffer at 400 Hz with
`f0Min = 200`, `f0Max = 400`, the candidate list is `[1]` and the theorem
yields `extractF0 = some 400` with lag 1 dominating. -/
theorem extractF0_spec_witness :
    400 ≤ (List.replicate 400 (1 : ℚ)).length ∧
    extractF0 onesBuf 0 1 200 400 = some 400 ∧
    (bestLagScan (List.replicate 400 (1 : ℚ)) [1]).2 ∈ [1] ∧
    ∀ lag ∈ [1],
      autocorrAt (List.replicate 400 (1 : ℚ)) lag ≤
        autocorrAt (List.replicate 400 (1 : ℚ))
          (bestLagScan (List.replicate 400 (1 : ℚ)) [1]).2 := by
  have hlen : (List.replicate 400 (1 : ℚ)).length = 400 := by
    rw [List.length_replicate]
  have hseg : (List.replicate 400 (1 : ℚ)) =
      jsSlice onesBuf.samples ⌊(0 : ℚ) * onesBuf.sampleRate⌋
        ⌊(1 : ℚ) * onesBuf.sampleRate⌋ := by
    have h0 : ⌊(0 : ℚ) * onesBuf.sampleRate⌋ = 0 := by norm_num [onesBuf]
    have h1 : ⌊(1 : ℚ) * onesBuf.sampleRate⌋ = 400 := by norm_num [onesBuf]
    rw [h0, h1]
    refine (jsSlice_all _ _ ?_).symm
    show ((List.replicate 400 (1 : ℚ)).length : ℤ) ≤ 400
    rw [List.length_replicate]
    norm_num
  have hcnat : f0Candidates 400 1 2 = [1] := by decide
  have hcands : ([1] : List ℕ) = f0Candidates (List.replicate 400 (1 : ℚ)).length
      ⌊onesBuf.sampleRate / 400⌋ ⌊onesBuf.sampleRate / 200⌋ := by
    rw [hlen]
    have h1 : ⌊onesBuf.sampleRate / 400⌋ = 1 := by norm_num [onesBuf]
    have h2 : ⌊onesBuf.sampleRate / 200⌋ = 2 := by norm_num [onesBuf]
    rw [h1, h2, hcnat]
  obtain ⟨-, h⟩ := extractF0_spec onesBuf 0 1 200 400 _ _ hseg hcands
  obtain ⟨hif, -, hmax⟩ := h (by rw [hlen])
  have hbest : (bestLagScan (List.replicate 400 (1 : ℚ)) [1]).2 = 1 := rfl
  refine ⟨by rw [hlen], ?_, ?_, ?_⟩
  · rw [hif, hbest]
    norm_num [onesBuf]
  · exact (hmax (by simp)).1
  · exact (hmax (by simp)).2

/-- The alternating `+1, -1` buffer used as the C4 counterexample input. -/
def altSamples : List ℚ :=
  (List.range 400).map (fun i => if i % 2 = 0 then 1 else -1)

lemma altSamples_getD (i : ℕ) (hi : i < 400) :
    altSamples.getD i 0 = if i % 2 = 0 then 1 else -1 := by
  simp [altSamples, List.getD_eq_getElem?_getD, List.getElem?_map,
    List.getElem?_range, hi]

lemma altSamples_length : altSamples.length = 400 := by simp [altSamples]

lemma altSamples_autocorr_one : autocorrAt altSamples 1 = -399 := by
  rw [autocorrAt, altSamples_length]
  have hprod : ∀ i ∈ List.range (400 - 1),
      altSamples.getD i 0 * altSamples.getD (i + 1) 0 = -1 := by
    intro i hi
    rw [List.mem_range] at hi
    rw [altSamples_getD i (by omega), altSamples_getD (i + 1) (by omega)]
    by_cases hp : i % 2 = 0
    · have hp1 : ¬((i + 1) % 2 = 0) := by omega
      simp [hp, hp1]
    · have hp1 : (i + 1) % 2 = 0 := by omega
      simp [hp, hp1]
  rw [List.map_congr_left hprod, List.map_const', List.length_range,
    List.sum_replicate]
  norm_num

/-- C4 counterexample: on the alternating `±1` buffer (400 samples, 400 Hz,
`f0Min = 200`, `f0Max = 400`) the only scanned lag has autocorrelation
`-399 < 0` — no positive-correlation lag exists — yet `extractF0` returns
`some 400` rather than `null`, refuting the claim's "returns
`sampleRate / bestLag` if a positive-correlation lag was found, else null". -/
theorem extractF0_negative_correlation_counterexample :
    (∀ lag ∈ f0Candidates altSamples.length ⌊(400 : ℚ) / 400⌋ ⌊(400 : ℚ) / 200⌋,
        autocorrAt altSamples lag < 0) ∧
    extractF0 ⟨altSamples, 400⟩ 0 1 200 400 = some 400 := by
  have hcnat : f0Candidates 400 1 2 = [1] := by decide
  have hcands : f0Candidates altSamples.length ⌊(400 : ℚ) / 400⌋ ⌊(400 : ℚ) / 200⌋ =
      [1] := by
    rw [altSamples_length]
    have h1 : ⌊(400 : ℚ) / 400⌋ = 1 := by norm_num
    have h2 : ⌊(400 : ℚ) / 200⌋ = 2 := by norm_num
    rw [h1, h2, hcnat]
  constructor
  · intro lag hlag
    rw [hcands] at hlag
    rcases List.mem_singleton.1 hlag with rfl
    rw [altSamples_autocorr_one]
    norm_num
  · have hseg : altSamples =
        jsSlice (AudioBuffer.mk altSamples 400).samples
          ⌊(0 : ℚ) * (AudioBuffer.mk altSamples 400).sampleRate⌋
          ⌊(1 : ℚ) * (AudioBuffer.mk altSamples 400).sampleRate⌋ := by
      have h0 : ⌊(0 : ℚ) * (AudioBuffer.mk altSamples 400).sampleRate⌋ = 0 := by
        norm_num
      have h1 : ⌊(1 : ℚ) * (AudioBuffer.mk altSamples 400).sampleRate⌋ = 400 := by
        norm_num
      rw [h0, h1]
      exact (jsSlice_all _ _ (by simp [altSamples_length])).symm
    have hcands2 : ([1] : List ℕ) = f0Candidates altSamples.length
        ⌊(AudioBuffer.mk altSamples 400).sampleRate / 400⌋
        ⌊(AudioBuffer.mk altSamples 400).sampleRate / 200⌋ := by
      rw [altSamples_length]
      have h1 : ⌊(AudioBuffer.mk altSamples 400).sampleRate / 400⌋ = 1 := by norm_num
      have h2 : ⌊(AudioBuffer.mk altSamples 400).sampleRate / 200⌋ = 2 := by norm_num
      rw [h1, h2, hcnat]
    obtain ⟨-, h⟩ := extractF0_spec ⟨altSamples, 400⟩ 0 1 200 400 _ _ hseg hcands2
    obtain ⟨hif, -, -⟩ := h (by rw [altSamples_length])
    have hbest : (bestLagScan altSamples [1]).2 = 1 := rfl
    rw [hif, hbest]
    norm_num

/-!
## C7 and C10: the VAD run collection
-/

/-- The recursive form of the run-collection `forEach`, equal to the
`vadStep` fold (the accumulator's segment part is split off). -/
def vadCollect (cur : Option (ℚ × List Feat)) : List Feat → List Seg
  | [] => []
  | f :: fs =>
      if f.isVoiced then
        match cur with
        | none => vadCollect (some (f.time, [f])) fs
        | some c => vadCollect (some (c.1, c.2 ++ [f])) fs
      else
        match cur with
        | some c =>
            (if c.2.length > 10 then
                [{ start := c.1, stop := ((c.2.getLast?).map Feat.time).getD 0,
                   speaker := "spk1", f0 := none }]
              else []) ++ vadCollect none fs
        | none => vadCollect none fs

lemma foldl_vadStep_eq_vadCollect :
    ∀ (fs : List Feat) (segs : List Seg) (cur : Option (ℚ × List Feat)),
      (fs.foldl vadStep (segs, cur)).1 = segs ++ vadCollect cur fs := by
  intro fs
  induction fs with
  | nil => intro segs cur; simp [vadCollect]
  | cons f fs ih =>
      intro segs cur
      rw [List.foldl_cons]
      by_cases hv : f.isVoiced
      · rcases cur with _ | c
        · rw [show vadStep (segs, none) f = (segs, some (f.time, [f])) by
            simp [vadStep, hv]]
          rw [ih, vadCollect]
          simp [hv]
        · rw [show vadStep (segs, some c) f = (segs, some (c.1, c.2 ++ [f])) by
            simp [vadStep, hv]]
          rw [ih, vadCollect]
          simp [hv]
      · rcases cur with _ | c
        · rw [show vadStep (segs, none) f = (segs, none) by simp [vadStep, hv]]
          rw [ih, vadCollect]
          simp [hv]
        · by_cases hlen : c.2.length > 10
          · rw [show vadStep (segs, some c) f =
                (segs ++ [{ start := c.1,
                            stop := ((c.2.getLast?).map Feat.time).getD 0,
                            speaker := "spk1", f0 := none }], none) by
              simp [vadStep, hv, hlen]]
            rw [ih, vadCollect]
            simp [hv, hlen]
          · rw [show vadStep (segs, some c) f = (segs, none) by
              simp [vadStep, hv, hlen]]
            rw [ih, vadCollect]
            simp [hv, hlen]

lemma vadSegments_eq_vadCollect (features : List Feat) :
    vadSegments features = vadCollect none features :=
  foldl_vadStep_eq_vadCollect features [] none

/-- The maximal voiced runs of a feature sequence, split on unvoiced frames;
the final group is the still-open trailing run (empty when the sequence ends
with an unvoiced frame).  Follows the specification's "segments are runs of
consecutive voiced frames". -/
def voicedRunsAux (acc : List Feat) : List Feat → List (List Feat)
  | [] => [acc]
  | f :: fs =>
      if f.isVoiced then voicedRunsAux (acc ++ [f]) fs
      else acc :: voicedRunsAux [] fs

/-- The voiced runs that are closed by a subsequent unvoiced frame (the open
trailing run is discarded). -/
def closedVoicedRuns (features : List Feat) : List (List Feat) :=
  (voicedRunsAux [] features).dropLast

/-- The segment a voiced run denotes: from the first frame's timestamp to the
last frame's timestamp. -/
def vadRunSeg (run : List Feat) : Seg :=
  { start := ((run.head?).map Feat.time).getD 0,
    stop := ((run.getLast?).map Feat.time).getD 0,
    speaker := "spk1", f0 := none }

lemma voicedRunsAux_ne_nil (fs : List Feat) : ∀ acc, voicedRunsAux acc fs ≠ [] := by
  induction fs with
  | nil => intro acc; simp [voicedRunsAux]
  | cons f fs ih =>
      intro acc
      by_cases hv : f.isVoiced <;> simp [voicedRunsAux, hv]
      exact ih (acc ++ [f])

lemma vadCollect_closed_runs :
    ∀ fs : List Feat,
      (vadCollect none fs =
        ((closedVoicedRuns fs).filter (fun r => r.length > 10)).map vadRunSeg) ∧
      (∀ t acc, acc ≠ [] → t = ((acc.head?).map Feat.time).getD 0 →
        vadCollect (some (t, acc)) fs =
          (((voicedRunsAux acc fs).dropLast).filter
            (fun r => r.length > 10)).map vadRunSeg) := by
  intro fs
  induction fs with
  | nil =>
      refine ⟨by simp [vadCollect, closedVoicedRuns, voicedRunsAux], ?_⟩
      intro t acc hacc ht
      simp [vadCollect, voicedRunsAux]
  | cons f fs ih =>
      obtain ⟨ihP, ihQ⟩ := ih
      constructor
      · by_cases hv : f.isVoiced
        · rw [vadCollect]
          simp only [hv, if_true]
          rw [ihQ f.time [f] (by simp) (by simp)]
          simp only [closedVoicedRuns, voicedRunsAux, hv, if_true,
            List.nil_append]
        · rw [vadCollect]
          simp only [hv, if_false, Bool.false_eq_true]
          rw [ihP]
          simp only [closedVoicedRuns, voicedRunsAux, hv, Bool.false_eq_true,
            if_false]
          rw [List.dropLast_cons_of_ne_nil (voicedRunsAux_ne_nil fs [])]
          simp
      · intro t acc hacc ht
        by_cases hv : f.isVoiced
        · rw [vadCollect]
          simp only [hv, if_true]
          have hhead : ((acc ++ [f]).head?.map Feat.time).getD 0 =
              ((acc.head?).map Feat.time).getD 0 := by
            rcases acc with _ | ⟨a, acc⟩
            · exact absurd rfl hacc
            · simp
          rw [ihQ t (acc ++ [f]) (by simp) (by rw [ht, hhead])]
          simp only [voicedRunsAux, hv, if_true]
        · rw [vadCollect]
          simp only [hv, if_false, Bool.false_eq_true]
          rw [ihP]
          simp only [voicedRunsAux, hv, Bool.false_eq_true, if_false]
          rw [List.dropLast_cons_of_ne_nil (voicedRunsAux_ne_nil fs [])]
          rw [List.filter_cons]
          by_cases hlen : acc.length > 10
          · rw [if_pos hlen, if_pos (by simpa using hlen), List.map_cons]
            refine congrArg₂ List.cons ?_ rfl
            simp [vadRunSeg, ht]
          · rw [if_neg hlen, if_neg (by simpa using hlen), List.nil_append]
            rfl

/-- C7 (amended): for every sample buffer, the VAD Feature Segmenter emits
exactly the maximal runs of consecutive voiced frames (`energy > 0.01`,
strict) that are closed by a subsequent unvoiced frame and are strictly
longer than 10 frames — a run of exactly 10 frames is discarded, since the
source tests `features.length > 10` — and each emitted segment runs from the
first to the last voiced frame's timestamp. -/
theorem segmentByVADClustering_runs (buf : AudioBuffer) (params : Params) :
    (segmentByVADClustering buf params).1 =
      ((closedVoicedRuns (vadFeatures buf)).filter
        (fun r => r.length > 10)).map vadRunSeg := by
  have h1 : (segmentByVADClustering buf params).1 = vadSegments (vadFeatures buf) := rfl
  rw [h1, vadSegments_eq_vadCollect]
  exact (vadCollect_closed_runs (vadFeatures buf)).1

/-- C10: a voiced run still open at the end of the buffer is never emitted,
whatever its length: appending any all-voiced suffix to the frame sequence
leaves the collected segments unchanged (a run is only emitted when a
subsequent unvoiced frame closes it); and `segmentByVADClustering` is
exactly this collection over the buffer's frame features. -/
theorem vadSegments_trailing_voiced_dropped :
    (∀ (features vs : List Feat), (∀ f ∈ vs, f.isVoiced = true) →
      vadSegments (features ++ vs) = vadSegments features) ∧
    (∀ (buf : AudioBuffer) (params : Params),
      (segmentByVADClustering buf params).1 = vadSegments (vadFeatures buf)) := by
  constructor
  · have hfold : ∀ (vs : List Feat) (st : List Seg × Option (ℚ × List Feat)),
        (∀ f ∈ vs, f.isVoiced = true) → (vs.foldl vadStep st).1 = st.1 := by
      intro vs
      induction vs with
      | nil => intro st _; rfl
      | cons f vs ih =>
          intro st hv
          rw [List.foldl_cons]
          have hstep : (vadStep st f).1 = st.1 := by
            have hf : f.isVoiced = true := hv f (List.mem_cons_self f vs)
            rcases st with ⟨segs, _ | c⟩ <;> simp [vadStep, hf]
          rw [ih _ (fun g hg => hv g (List.mem_cons_of_mem f hg)), hstep]
    intro features vs hvs
    rw [vadSegments, List.foldl_append, hfold vs _ hvs]
    rfl
  · intro buf params
    rfl

/-- C10 witness: one unvoiced frame followed by one (arbitrarily short)
trailing voiced frame yields the same segments as the unvoiced frame alone. -/
theorem vadSegments_trailing_voiced_dropped_witness :
    vadSegments ([{ time := 0, energy := 0, zcr := 0, spectralCentroid := 0,
                    isVoiced := false }] ++
        [{ time := 1/100, energy := 1, zcr := 0, spectralCentroid := 0,
           isVoiced := true }]) =
      vadSegments [{ time := 0, energy := 0, zcr := 0, spectralCentroid := 0,
                     isVoiced := false }] :=
  (vadSegments_trailing_voiced_dropped).1 _ _ (by
    intro f hf
    rcases List.mem_singleton.1 hf with rfl
    rfl)

/-- The kept-run selection exactly as the claim words it ("a run shorter
than 10 frames is discarded", i.e. runs of 10 or more frames are kept):
for comparison with the code's strict `> 10` test. -/
def vadSegmentsSpecClaim (features : List Feat) : List Seg :=
  ((closedVoicedRuns features).filter (fun r => 10 ≤ r.length)).map vadRunSeg

/-- A 26-sample buffer (20 loud, 6 silent) which at 200 Hz yields exactly
10 voiced frames followed by one unvoiced frame. -/
def vadSamples : List ℚ :=
  [1, 1, 1, 1, 1, 1, 1, 1, 1, 1, 1, 1, 1, 1, 1, 1, 1, 1, 1, 1,
   0, 0, 0, 0, 0, 0]

/-- The feature sequence `vadFeatures ⟨vadSamples, 200⟩` evaluates to:
frame size 5, hop 2, eleven frames, the first ten voiced. -/
def vadFeatList : List Feat :=
  [{ time := 0, energy := 1, zcr := 0, spectralCentroid := 80, isVoiced := true },
   { time := 1/100, energy := 1, zcr := 0, spectralCentroid := 80, isVoiced := true },
   { time := 1/50, energy := 1, zcr := 0, spectralCentroid := 80, isVoiced := true },
   { time := 3/100, energy := 1, zcr := 0, spectralCentroid := 80, isVoiced := true },
   { time := 1/25, energy := 1, zcr := 0, spectralCentroid := 80, isVoiced := true },
   { time := 1/20, energy := 1, zcr := 0, spectralCentroid := 80, isVoiced := true },
   { time := 3/50, energy := 1, zcr := 0, spectralCentroid := 80, isVoiced := true },
   { time := 7/100, energy := 1, zcr := 0, spectralCentroid := 80, isVoiced := true },
   { time := 2/25, energy := 4/5, zcr := 0, spectralCentroid := 60, isVoiced := true },
   { time := 9/100, energy := 2/5, zcr := 0, spectralCentroid := 20, isVoiced := true },
   { time := 1/10, energy := 0, zcr := 0, spectralCentroid := 0, isVoiced := false }]

lemma vadFeatures_concrete : vadFeatures ⟨vadSamples, 200⟩ = vadFeatList := by
  have hstarts : frameStarts 26 5 2 = [0, 2, 4, 6, 8, 10, 12, 14, 16, 18, 20] := by
    decide
  have hf0 : (vadSamples.drop 0).take 5 = [1, 1, 1, 1, 1] := rfl
  have hf2 : (vadSamples.drop 2).take 5 = [1, 1, 1, 1, 1] := rfl
  have hf4 : (vadSamples.drop 4).take 5 = [1, 1, 1, 1, 1] := rfl
  have hf6 : (vadSamples.drop 6).take 5 = [1, 1, 1, 1, 1] := rfl
  have hf8 : (vadSamples.drop 8).take 5 = [1, 1, 1, 1, 1] := rfl
  have hf10 : (vadSamples.drop 10).take 5 = [1, 1, 1, 1, 1] := rfl
  have hf12 : (vadSamples.drop 12).take 5 = [1, 1, 1, 1, 1] := rfl
  have hf14 : (vadSamples.drop 14).take 5 = [1, 1, 1, 1, 1] := rfl
  have hf16 : (vadSamples.drop 16).take 5 = [1, 1, 1, 1, 0] := rfl
  have hf18 : (vadSamples.drop 18).take 5 = [1, 1, 0, 0, 0] := rfl
  have hf20 : (vadSamples.drop 20).take 5 = [0, 0, 0, 0, 0] := rfl
  have hE1 : calculateEnergy [1, 1, 1, 1, 1] = 1 := by norm_num [calculateEnergy]
  have hE2 : calculateEnergy [1, 1, 1, 1, 0] = 4/5 := by norm_num [calculateEnergy]
  have hE3 : calculateEnergy [1, 1, 0, 0, 0] = 2/5 := by norm_num [calculateEnergy]
  have hE4 : calculateEnergy [0, 0, 0, 0, 0] = 0 := by norm_num [calculateEnergy]
  have hZ1 : calculateZCR [1, 1, 1, 1, 1] = 0 := by norm_num [calculateZCR]
  have hZ2 : calculateZCR [1, 1, 1, 1, 0] = 0 := by norm_num [calculateZCR]
  have hZ3 : calculateZCR [1, 1, 0, 0, 0] = 0 := by norm_num [calculateZCR]
  have hZ4 : calculateZCR [0, 0, 0, 0, 0] = 0 := by norm_num [calculateZCR]
  have hS1 : calculateSpectralCentroid [1, 1, 1, 1, 1] 200 = 80 := by
    norm_num [calculateSpectralCentroid, List.enum]
  have hS2 : calculateSpectralCentroid [1, 1, 1, 1, 0] 200 = 60 := by
    norm_num [calculateSpectralCentroid, List.enum]
  have hS3 : calculateSpectralCentroid [1, 1, 0, 0, 0] 200 = 20 := by
    norm_num [calculateSpectralCentroid, List.enum]
  have hS4 : calculateSpectralCentroid [0, 0, 0, 0, 0] 200 = 0 := by
    norm_num [calculateSpectralCentroid, List.enum]
  have hv1 : decide ((1 : ℚ) > 0.01) = true := by norm_num
  have hv2 : decide ((4/5 : ℚ) > 0.01) = true := by norm_num
  have hv3 : decide ((2/5 : ℚ) > 0.01) = true := by norm_num
  have hv4 : decide ((0 : ℚ) > 0.01) = false := by norm_num
  have hlen : vadSamples.length = 26 := rfl
  have hfs : (⌊((⟨vadSamples, 200⟩ : AudioBuffer)).sampleRate / 40⌋).toNat = 5 := by
    have h : ⌊((⟨vadSamples, 200⟩ : AudioBuffer)).sampleRate / 40⌋ = 5 := by norm_num
    rw [h]
    rfl
  have hhs : (⌊((⟨vadSamples, 200⟩ : AudioBuffer)).sampleRate / 100⌋).toNat = 2 := by
    have h : ⌊((⟨vadSamples, 200⟩ : AudioBuffer)).sampleRate / 100⌋ = 2 := by norm_num
    rw [h]
    rfl
  rw [vadFeatures]
  rw [hlen, hfs, hhs, hstarts]
  simp only [List.map_cons, List.map_nil]
  rw [hf0, hf2, hf4, hf6, hf8, hf10, hf12, hf14, hf16, hf18, hf20]
  rw [hE1, hE2, hE3, hE4, hZ1, hZ2, hZ3, hZ4, hS1, hS2, hS3, hS4]
  rw [hv1, hv2, hv3, hv4]
  norm_num [vadFeatList, Feat.mk.injEq]

/-- C7 counterexample: on `vadSamples` at 200 Hz the feature sequence is a
run of exactly 10 voiced frames closed by an unvoiced frame; the claim's
rule ("discard runs shorter than 10") would emit one segment ending at the
last voiced frame (time 9/100), but `segmentByVADClustering` emits nothing,
because the source keeps only runs with `length > 10`. -/
theorem segmentByVADClustering_ten_frame_counterexample :
    (segmentByVADClustering ⟨vadSamples, 200⟩ ⟨1/2, 0, 500, 2, 75, 300, 1/4⟩).1 =
      [] ∧
    vadSegmentsSpecClaim (vadFeatures ⟨vadSamples, 200⟩) =
      [{ start := 0, stop := 9/100, speaker := "spk1", f0 := none }] := by
  constructor
  · have h1 : (segmentByVADClustering ⟨vadSamples, 200⟩
        ⟨1/2, 0, 500, 2, 75, 300, 1/4⟩).1 =
        vadSegments (vadFeatures ⟨vadSamples, 200⟩) := rfl
    rw [h1, vadFeatures_concrete]
    simp [vadSegments, vadFeatList, vadStep]
  · rw [vadFeatures_concrete]
    simp [vadSegmentsSpecClaim, vadFeatList, closedVoicedRuns, voicedRunsAux,
      vadRunSeg]

/-!
## C5: the history stacks stay bounded
-/

/-- The inductive invariant: the two stack lengths sum to at most the
configured maximum.  (`undo`/`redo` move one snapshot between the stacks —
`redo` even pushes to the undo stack without the trim — and `saveState`
trims the undo stack and clears the redo stack, so the sum never grows past
the bound.) -/
lemma reachable_stack_sum (st : AppState) (h : Reachable st) :
    st.undoStack.length + st.redoStack.length ≤ maxHistorySize := by
  induction h with
  | init segments speakerTracks => simp [maxHistorySize]
  | @save st' label hr ih =>
      simp only [saveState]
      split_ifs with hlen
      · simp only [List.length_drop, List.length_append, List.length_singleton,
          List.length_nil, maxHistorySize] at *
        omega
      · simp only [List.length_append, List.length_singleton, List.length_nil,
          maxHistorySize] at *
        omega
  | @undoStep st' hr ih =>
      rcases hg : st'.undoStack.getLast? with _ | prev
      · simpa [undo, hg] using ih
      · have hne : st'.undoStack ≠ [] := by
          intro he
          rw [he] at hg
          simp at hg
        have hpos : 1 ≤ st'.undoStack.length := List.length_pos.2 hne
        simp only [undo, hg, restoreState, List.length_dropLast,
          List.length_append, List.length_singleton] at *
        omega
  | @redoStep st' hr ih =>
      rcases hg : st'.redoStack.getLast? with _ | nxt
      · simpa [redo, hg] using ih
      · have hne : st'.redoStack ≠ [] := by
          intro he
          rw [he] at hg
          simp at hg
        have hpos : 1 ≤ st'.redoStack.length := List.length_pos.2 hne
        simp only [redo, hg, restoreState, List.length_dropLast,
          List.length_append, List.length_singleton] at *
        omega
  | mutate segments speakerTracks _ ih => simpa using ih

/-- C5: in every state reachable from an empty history by captures, undos,
redos and live-state mutations, the undo stack never exceeds the maximum
depth (50); a capture at capacity evicts the bottom (oldest) entry and
appends the new snapshot on top; and every capture clears the redo stack. -/
theorem history_stack_bounded :
    (∀ st : AppState, Reachable st → st.undoStack.length ≤ maxHistorySize) ∧
    (∀ (st : AppState) (label : String),
      st.undoStack.length = maxHistorySize →
      (saveState st label).undoStack =
        st.undoStack.drop 1 ++ [mkSnapshot st label]) ∧
    (∀ (st : AppState) (label : String), (saveState st label).redoStack = []) := by
  refine ⟨fun st h => le_trans (Nat.le_add_right _ _) (reachable_stack_sum st h),
    fun st label hlen => ?_, fun st label => rfl⟩
  simp only [saveState]
  rw [if_pos (by simp [hlen, maxHistorySize])]
  rw [List.drop_append_of_le_length (by rw [hlen, maxHistorySize]; omega)]

/-- A blank snapshot and a full undo stack for the C5 witness. -/
def blankSnap : Snapshot := { action := "blank", segments := [], speakers := [] }

/-- An application state whose undo stack is at capacity. -/
def stackFull : AppState :=
  { segments := [], speakerTracks := [],
    undoStack := List.replicate 50 blankSnap, redoStack := [] }

/-- C5 witness: the bound applied at the freshly initialized state, and the
eviction shape applied at a full stack. -/
theorem history_stack_bounded_witness :
    (Reachable { segments := [], speakerTracks := [], undoStack := [],
                 redoStack := [] } ∧
      ({ segments := [], speakerTracks := [], undoStack := [],
         redoStack := [] } : AppState).undoStack.length ≤ maxHistorySize) ∧
    (stackFull.undoStack.length = maxHistorySize ∧
      (saveState stackFull "overflow").undoStack =
        stackFull.undoStack.drop 1 ++ [mkSnapshot stackFull "overflow"]) := by
  have hfull : stackFull.undoStack.length = maxHistorySize := by
    show (List.replicate 50 blankSnap).length = maxHistorySize
    rw [List.length_replicate]
    rfl
  exact ⟨⟨Reachable.init [] [],
      history_stack_bounded.1 _ (Reachable.init [] [])⟩,
    ⟨hfull, history_stack_bounded.2.1 stackFull "overflow" hfull⟩⟩

/-!
## C6: undo/redo round trips
-/

/-- The live segment-and-speaker state, in the exact shape `saveState`
captures it (`color` is a derived display field and is not part of the
captured state). -/
def liveProj (st : AppState) : List SnapSeg × List SpeakerEntry :=
  (st.segments.map (fun s =>
     { id := s.id, start := s.start, stop := s.stop,
       speaker := s.speaker, transcription := s.transcription }),
   st.speakerTracks.map (fun t => { id := t.speakerNum, name := t.name }))

lemma updateFirstTrack_cons_ne (e : SpeakerEntry) (t : SpeakerTrack)
    (ts : List SpeakerTrack) (h : t.speakerNum ≠ e.id) :
    updateFirstTrack (t :: ts) e = t :: updateFirstTrack ts e := by
  simp [updateFirstTrack, h]

lemma foldl_updateFirstTrack_skip (entries : List SpeakerEntry) :
    ∀ (t : SpeakerTrack) (ts : List SpeakerTrack),
      (∀ e ∈ entries, e.id ≠ t.speakerNum) →
      entries.foldl updateFirstTrack (t :: ts) =
        t :: entries.foldl updateFirstTrack ts := by
  induction entries with
  | nil => intro t ts _; rfl
  | cons e es ih =>
      intro t ts h
      rw [List.foldl_cons,
        updateFirstTrack_cons_ne e t ts
          (fun he => h e (List.mem_cons_self e es) he.symm),
        List.foldl_cons]
      exact ih t (updateFirstTrack ts e)
        (fun e' he' => h e' (List.mem_cons_of_mem e he'))

/-- Restoring speaker names onto tracks whose id sequence matches the
snapshot's (without duplicates) rewrites every track name, yielding exactly
the snapshot's id/name pairs. -/
lemma foldl_updateFirstTrack_exact :
    ∀ (entries : List SpeakerEntry) (tracks : List SpeakerTrack),
      tracks.map SpeakerTrack.speakerNum = entries.map SpeakerEntry.id →
      (entries.map SpeakerEntry.id).Nodup →
      entries.foldl updateFirstTrack tracks =
        entries.map (fun e => { speakerNum := e.id, name := e.name }) := by
  intro entries
  induction entries with
  | nil =>
      intro tracks h _
      simp only [List.map_nil] at h
      rw [List.map_eq_nil_iff] at h
      rw [h]
      rfl
  | cons e es ih =>
      intro tracks h hn
      rcases tracks with _ | ⟨t, ts⟩
      · simp at h
      · simp only [List.map_cons, List.cons.injEq] at h
        obtain ⟨hid, hrest⟩ := h
        simp only [List.map_cons, List.nodup_cons] at hn
        obtain ⟨hnotin, hnd⟩ := hn
        rw [List.foldl_cons,
          show updateFirstTrack (t :: ts) e = { t with name := e.name } :: ts by
            simp [updateFirstTrack, hid]]
        rw [foldl_updateFirstTrack_skip es _ ts ?_]
        · rw [ih ts hrest hnd, List.map_cons]
          refine congrArg₂ List.cons ?_ rfl
          cases t
          simp only at hid
          simp [hid]
        · intro e' he' hc
          simp only at hc
          rw [hid] at hc
          exact hnotin (hc ▸ List.mem_map_of_mem SpeakerEntry.id he')

lemma updateFirstTrack_foldl_map_num (entries : List SpeakerEntry) :
    ∀ ts : List SpeakerTrack,
      (entries.foldl updateFirstTrack ts).map SpeakerTrack.speakerNum =
        ts.map SpeakerTrack.speakerNum := by
  induction entries with
  | nil => intro ts; rfl
  | cons e es ih =>
      intro ts
      rw [List.foldl_cons, ih]
      induction ts with
      | nil => rfl
      | cons t ts iht =>
          by_cases h : t.speakerNum = e.id <;>
            simp [updateFirstTrack, h, iht]

/-- Restoring a snapshot onto a state whose speaker-track id sequence matches
the snapshot's replaces the whole live segment-and-speaker state with the
snapshot's. -/
lemma liveProj_restoreState (st : AppState) (snap : Snapshot)
    (hid : st.speakerTracks.map SpeakerTrack.speakerNum =
      snap.speakers.map SpeakerEntry.id)
    (hnodup : (snap.speakers.map SpeakerEntry.id).Nodup) :
    liveProj (restoreState st snap) = (snap.segments, snap.speakers) := by
  simp only [liveProj, restoreState, Prod.mk.injEq]
  constructor
  · rw [List.map_map]
    exact List.map_id'' (fun s => rfl) snap.segments
  · rw [foldl_updateFirstTrack_exact snap.speakers st.speakerTracks hid hnodup]
    rw [List.map_map]
    exact List.map_id'' (fun e => rfl) snap.speakers

lemma mkSnapshot_liveProj (st : AppState) (label : String) :
    ((mkSnapshot st label).segments, (mkSnapshot st label).speakers) =
      liveProj st := rfl

/-- C6: starting from any state, after `capture("A")`, arbitrary live
mutation, `capture("B")`, arbitrary live mutation, an `undo()` restores the
live segment-and-speaker state captured just before "B", and a further
`redo()` restores the state as of the moment `undo()` was invoked (provided
the mutations kept the speaker-track id sequence, which the app never
changes outside track creation/deletion, and ids are distinct); `undo()` on
an empty undo stack returns the state unchanged with the "nothing to undo"
signal. -/
theorem history_undo_redo_roundtrip
    (base : AppState) (liveSegs1 liveSegs2 : List LiveSeg)
    (tracks1 tracks2 : List SpeakerTrack) (stM1 stM2 : AppState)
    (hM1 : stM1 = { saveState base "A" with
      segments := liveSegs1, speakerTracks := tracks1 })
    (hM2 : stM2 = { saveState stM1 "B" with
      segments := liveSegs2, speakerTracks := tracks2 })
    (hid : tracks2.map SpeakerTrack.speakerNum =
      tracks1.map SpeakerTrack.speakerNum)
    (hnodup : (tracks1.map SpeakerTrack.speakerNum).Nodup) :
    (liveProj (undo stM2).1 =
      ((mkSnapshot stM1 "B").segments, (mkSnapshot stM1 "B").speakers) ∧
     liveProj (redo (undo stM2).1).1 = liveProj stM2) ∧
    (∀ st : AppState, st.undoStack = [] →
      undo st = (st, HistSignal.nothingToUndo)) := by
  have hM1tracks : stM1.speakerTracks = tracks1 := by rw [hM1]
  have hM2tracks : stM2.speakerTracks = tracks2 := by rw [hM2]
  have hlast : stM2.undoStack.getLast? = some (mkSnapshot stM1 "B") := by
    rw [hM2]
    exact saveState_undoStack_getLast stM1 "B"
  have hsnapids : (mkSnapshot stM1 "B").speakers.map SpeakerEntry.id =
      tracks1.map SpeakerTrack.speakerNum := by
    simp [mkSnapshot, hM1tracks, List.map_map]
  have hundo : (undo stM2).1 =
      restoreState
        { stM2 with
            redoStack := stM2.redoStack ++ [mkSnapshot stM2 "before_undo"],
            undoStack := stM2.undoStack.dropLast }
        (mkSnapshot stM1 "B") := by
    simp only [undo, hlast]
  constructor
  · constructor
    · rw [hundo]
      exact liveProj_restoreState _ _
        (by rw [hsnapids]
            show stM2.speakerTracks.map SpeakerTrack.speakerNum =
              tracks1.map SpeakerTrack.speakerNum
            rw [hM2tracks, hid])
        (by rw [hsnapids]; exact hnodup)
    · have hredolast : (undo stM2).1.redoStack.getLast? =
          some (mkSnapshot stM2 "before_undo") := by
        rw [hundo]
        show (stM2.redoStack ++ [mkSnapshot stM2 "before_undo"]).getLast? = _
        exact List.getLast?_concat _
      have hredo : (redo (undo stM2).1).1 =
          restoreState
            { (undo stM2).1 with
                undoStack := (undo stM2).1.undoStack ++
                  [mkSnapshot (undo stM2).1 "before_redo"],
                redoStack := (undo stM2).1.redoStack.dropLast }
            (mkSnapshot stM2 "before_undo") := by
        simp only [redo, hredolast]
      rw [hredo]
      have hutracks : (undo stM2).1.speakerTracks.map SpeakerTrack.speakerNum =
          tracks1.map SpeakerTrack.speakerNum := by
        rw [hundo]
        show ((mkSnapshot stM1 "B").speakers.foldl updateFirstTrack
          stM2.speakerTracks).map SpeakerTrack.speakerNum = _
        rw [updateFirstTrack_foldl_map_num, hM2tracks, hid]
      have hcids : (mkSnapshot stM2 "before_undo").speakers.map SpeakerEntry.id =
          tracks2.map SpeakerTrack.speakerNum := by
        simp [mkSnapshot, hM2tracks, List.map_map]
      rw [liveProj_restoreState _ _
        (by rw [hcids, hid]
            show (undo stM2).1.speakerTracks.map SpeakerTrack.speakerNum = _
            rw [hutracks])
        (by rw [hcids, hid]; exact hnodup)]
      exact mkSnapshot_liveProj stM2 "before_undo"
  · intro st hst
    simp [undo, hst]

/-- C6 witness: the round trip on a concrete run with two speaker tracks. -/
theorem history_undo_redo_roundtrip_witness :
    (liveProj (undo { saveState { saveState
        { segments := [], speakerTracks := [⟨1, "S1"⟩, ⟨2, "S2"⟩],
          undoStack := [], redoStack := [] } "A" with
        segments := [⟨1, 0, 1, 1, "hello", none⟩],
        speakerTracks := [⟨1, "Alice"⟩, ⟨2, "Bob"⟩] } "B" with
        segments := ([] : List LiveSeg),
        speakerTracks := [⟨1, "Carol"⟩, ⟨2, "Dan"⟩] }).1 =
      ((mkSnapshot { saveState
        { segments := [], speakerTracks := [⟨1, "S1"⟩, ⟨2, "S2"⟩],
          undoStack := [], redoStack := [] } "A" with
        segments := [⟨1, 0, 1, 1, "hello", none⟩],
        speakerTracks := [⟨1, "Alice"⟩, ⟨2, "Bob"⟩] } "B").segments,
       (mkSnapshot { saveState
        { segments := [], speakerTracks := [⟨1, "S1"⟩, ⟨2, "S2"⟩],
          undoStack := [], redoStack := [] } "A" with
        segments := [⟨1, 0, 1, 1, "hello", none⟩],
        speakerTracks := [⟨1, "Alice"⟩, ⟨2, "Bob"⟩] } "B").speakers) ∧
     liveProj (redo (undo { saveState { saveState
        { segments := [], speakerTracks := [⟨1, "S1"⟩, ⟨2, "S2"⟩],
          undoStack := [], redoStack := [] } "A" with
        segments := [⟨1, 0, 1, 1, "hello", none⟩],
        speakerTracks := [⟨1, "Alice"⟩, ⟨2, "Bob"⟩] } "B" with
        segments := ([] : List LiveSeg),
        speakerTracks := [⟨1, "Carol"⟩, ⟨2, "Dan"⟩] }).1).1 =
      liveProj { saveState { saveState
        { segments := [], speakerTracks := [⟨1, "S1"⟩, ⟨2, "S2"⟩],
          undoStack := [], redoStack := [] } "A" with
        segments := [⟨1, 0, 1, 1, "hello", none⟩],
        speakerTracks := [⟨1, "Alice"⟩, ⟨2, "Bob"⟩] } "B" with
        segments := ([] : List LiveSeg),
        speakerTracks := [⟨1, "Carol"⟩, ⟨2, "Dan"⟩] }) ∧
    (∀ st : AppState, st.undoStack = [] →
      undo st = (st, HistSignal.nothingToUndo)) :=
  history_undo_redo_roundtrip
    { segments := [], speakerTracks := [⟨1, "S1"⟩, ⟨2, "S2"⟩],
      undoStack := [], redoStack := [] }
    [⟨1, 0, 1, 1, "hello", none⟩] []
    [⟨1, "Alice"⟩, ⟨2, "Bob"⟩] [⟨1, "Carol"⟩, ⟨2, "Dan"⟩]
    _ _ rfl rfl (by simp) (by simp)

/-!
## C8: the progress logs
-/

lemma round_mono_q {a b : ℚ} (h : a ≤ b) : round a ≤ round b := by
  rw [round_eq, round_eq]
  exact Int.floor_le_floor (by linarith)

lemma round_hundred : round ((100 : ℚ)) = 100 := by norm_num [round_eq]

lemma round_fifty : round ((50 : ℚ)) = 50 := by norm_num [round_eq]

lemma round_forty : round ((40 : ℚ)) = 40 := by norm_num [round_eq]

/-- The progress log of one scan step: an entry is appended exactly at the
yield stride. -/
lemma silStep_progressLog (len : ℕ) (sr threshold minDuration pauseTolerance : ℚ)
    (stride : ℕ) (st : SilState) (i : ℕ) (x : ℚ) :
    (silStep len sr threshold minDuration pauseTolerance stride st i x).progressLog =
      if 0 < stride ∧ i % stride = 0 then
        st.progressLog ++ [((round ((i : ℚ) / (len : ℚ) * 100) : ℤ) : ℚ)]
      else st.progressLog := by
  simp only [silStep]
  split_ifs <;> rfl

/-- Scan invariant for the progress log: entries are sorted, integral,
within `[0, 100]`, and bounded by the rounded percentage of the scan
position. -/
lemma silScan_progress_inv (len : ℕ) (sr threshold minDuration pauseTolerance : ℚ)
    (stride : ℕ) :
    ∀ (xs : List ℚ) (i : ℕ) (st : SilState),
      i + xs.length ≤ len →
      st.progressLog.Sorted (· ≤ ·) →
      (∀ v ∈ st.progressLog, 0 ≤ v ∧ v ≤ 100 ∧ v.den = 1 ∧
        v ≤ ((round ((i : ℚ) / (len : ℚ) * 100) : ℤ) : ℚ)) →
      (silScan len sr threshold minDuration pauseTolerance stride i st
        xs).progressLog.Sorted (· ≤ ·) ∧
      (∀ v ∈ (silScan len sr threshold minDuration pauseTolerance stride i st
          xs).progressLog,
        0 ≤ v ∧ v ≤ 100 ∧ v.den = 1 ∧
        v ≤ ((round (((i + xs.length : ℕ) : ℚ) / (len : ℚ) * 100) : ℤ) : ℚ)) := by
  intro xs
  induction xs with
  | nil =>
      intro i st _ hsort hbound
      rw [silScan]
      exact ⟨hsort, by simpa using hbound⟩
  | cons x xs ih =>
      intro i st hle hsort hbound
      rw [silScan]
      have hle' : (i + 1) + xs.length ≤ len := by
        simp only [List.length_cons] at hle
        omega
      have hargmono : (i : ℚ) / (len : ℚ) * 100 ≤
          ((i + 1 : ℕ) : ℚ) / (len : ℚ) * 100 := by
        have h1 : ((i : ℕ) : ℚ) ≤ ((i + 1 : ℕ) : ℚ) := by
          exact_mod_cast Nat.le_succ i
        have h2 := div_le_div_of_nonneg_right h1 (Nat.cast_nonneg len)
        exact mul_le_mul_of_nonneg_right h2 (by norm_num)
      have hroundmono : ((round ((i : ℚ) / (len : ℚ) * 100) : ℤ) : ℚ) ≤
          ((round (((i + 1 : ℕ) : ℚ) / (len : ℚ) * 100) : ℤ) : ℚ) := by
        exact_mod_cast round_mono_q hargmono
      have hstep := silStep_progressLog len sr threshold minDuration
        pauseTolerance stride st i x
      have harith : (i + 1) + xs.length = i + (x :: xs).length := by
        simp only [List.length_cons]
        omega
      rw [← harith]
      by_cases hc : 0 < stride ∧ i % stride = 0
      · rw [if_pos hc] at hstep
        have hw0 : (0 : ℚ) ≤ ((round ((i : ℚ) / (len : ℚ) * 100) : ℤ) : ℚ) := by
          have harg : (0 : ℚ) ≤ (i : ℚ) / (len : ℚ) * 100 := by positivity
          have h := round_mono_q harg
          rw [round_zero] at h
          exact_mod_cast h
        have hw100 : ((round ((i : ℚ) / (len : ℚ) * 100) : ℤ) : ℚ) ≤ 100 := by
          have hlenpos : (0 : ℚ) < (len : ℚ) := by
            exact_mod_cast (by omega : 0 < len)
          have hilen : (i : ℚ) ≤ (len : ℚ) := by
            exact_mod_cast (by omega : i ≤ len)
          have harg : (i : ℚ) / (len : ℚ) * 100 ≤ 100 := by
            have hd : (i : ℚ) / (len : ℚ) ≤ 1 := by
              rw [div_le_one hlenpos]
              exact hilen
            calc (i : ℚ) / (len : ℚ) * 100 ≤ 1 * 100 :=
                  mul_le_mul_of_nonneg_right hd (by norm_num)
              _ = 100 := by norm_num
          have h := round_mono_q harg
          rw [round_hundred] at h
          exact_mod_cast h
        have hsort' : (silStep len sr threshold minDuration pauseTolerance stride
            st i x).progressLog.Sorted (· ≤ ·) := by
          rw [hstep]
          refine List.pairwise_append.2 ⟨hsort, by simp, ?_⟩
          intro a ha b hb
          rcases List.mem_singleton.1 hb with rfl
          exact (hbound a ha).2.2.2
        have hbound' : ∀ v ∈ (silStep len sr threshold minDuration pauseTolerance
            stride st i x).progressLog,
            0 ≤ v ∧ v ≤ 100 ∧ v.den = 1 ∧
            v ≤ ((round (((i + 1 : ℕ) : ℚ) / (len : ℚ) * 100) : ℤ) : ℚ) := by
          rw [hstep]
          intro v hv
          rcases List.mem_append.1 hv with hv | hv
          · obtain ⟨h1, h2, h3, h4⟩ := hbound v hv
            exact ⟨h1, h2, h3, h4.trans hroundmono⟩
          · rcases List.mem_singleton.1 hv with rfl
            exact ⟨hw0, hw100, Rat.den_intCast _, hroundmono⟩
        exact ih (i + 1) _ hle' hsort' hbound'
      · rw [if_neg hc] at hstep
        have hsort' : (silStep len sr threshold minDuration pauseTolerance stride
            st i x).progressLog.Sorted (· ≤ ·) := by
          rw [hstep]; exact hsort
        have hbound' : ∀ v ∈ (silStep len sr threshold minDuration pauseTolerance
            stride st i x).progressLog,
            0 ≤ v ∧ v ≤ 100 ∧ v.den = 1 ∧
            v ≤ ((round (((i + 1 : ℕ) : ℚ) / (len : ℚ) * 100) : ℤ) : ℚ) := by
          rw [hstep]
          intro v hv
          obtain ⟨h1, h2, h3, h4⟩ := hbound v hv
          exact ⟨h1, h2, h3, h4.trans hroundmono⟩
        exact ih (i + 1) _ hle' hsort' hbound'

/-- The silence path's progress log is sorted and holds integers in
`[0, 100]`. -/
lemma segmentBySilence_progress (buf : AudioBuffer) (params : Params) :
    (segmentBySilence buf params).2.Sorted (· ≤ ·) ∧
    ∀ v ∈ (segmentBySilence buf params).2, 0 ≤ v ∧ v ≤ 100 ∧ v.den = 1 := by
  have h := silScan_progress_inv buf.samples.length buf.sampleRate
    params.silenceThreshold params.minSegmentDuration
    (params.pauseTolerance / 1000) 100000 buf.samples 0
    { segs := [], progressLog := [], inSpeech := false,
      segmentStart := 0, silenceStart := 0 }
    (by simp) (by simp) (by simp)
  exact ⟨h.1, fun v hv => ⟨(h.2 v hv).1, (h.2 v hv).2.1, (h.2 v hv).2.2.1⟩⟩

/-- The second-phase progress values of the pitch path, `50 + round(50·i/n)`,
are sorted and lie in `[50, 100]`. -/
lemma f0Log2_props (n : ℕ) :
    ((List.range n).map
      (fun i : ℕ => (50 : ℚ) + ((round ((i : ℚ) / (n : ℚ) * 50) : ℤ) : ℚ))).Sorted
        (· ≤ ·) ∧
    ∀ v ∈ (List.range n).map
        (fun i : ℕ => (50 : ℚ) + ((round ((i : ℚ) / (n : ℚ) * 50) : ℤ) : ℚ)),
      50 ≤ v ∧ v ≤ 100 := by
  constructor
  · refine List.Pairwise.map _ ?_ (List.pairwise_lt_range n)
    intro a b hab
    have harg : (a : ℚ) / (n : ℚ) * 50 ≤ (b : ℚ) / (n : ℚ) * 50 := by
      have h1 : ((a : ℕ) : ℚ) ≤ ((b : ℕ) : ℚ) := by exact_mod_cast hab.le
      exact mul_le_mul_of_nonneg_right
        (div_le_div_of_nonneg_right h1 (Nat.cast_nonneg n)) (by norm_num)
    have h2 : ((round ((a : ℚ) / (n : ℚ) * 50) : ℤ) : ℚ) ≤
        ((round ((b : ℚ) / (n : ℚ) * 50) : ℤ) : ℚ) := by
      exact_mod_cast round_mono_q harg
    linarith
  · intro v hv
    rcases List.mem_map.1 hv with ⟨i, hi, rfl⟩
    rw [List.mem_range] at hi
    have hnpos : (0 : ℚ) < (n : ℚ) := by exact_mod_cast (by omega : 0 < n)
    constructor
    · have harg : (0 : ℚ) ≤ (i : ℚ) / (n : ℚ) * 50 := by positivity
      have h := round_mono_q harg
      rw [round_zero] at h
      have h2 : (0 : ℚ) ≤ ((round ((i : ℚ) / (n : ℚ) * 50) : ℤ) : ℚ) := by
        exact_mod_cast h
      linarith
    · have harg : (i : ℚ) / (n : ℚ) * 50 ≤ 50 := by
        have hd : (i : ℚ) / (n : ℚ) ≤ 1 := by
          rw [div_le_one hnpos]
          exact_mod_cast hi.le
        calc (i : ℚ) / (n : ℚ) * 50 ≤ 1 * 50 :=
              mul_le_mul_of_nonneg_right hd (by norm_num)
          _ = 50 := by norm_num
      have h := round_mono_q harg
      rw [round_fifty] at h
      have h2 : ((round ((i : ℚ) / (n : ℚ) * 50) : ℤ) : ℚ) ≤ 50 := by
        exact_mod_cast h
      linarith

/-- The frame-loop progress values of the VAD path, `10 + round(40·i/len)`,
are sorted integers in `[10, 50]`. -/
lemma vadEntries_props (len : ℕ) (l : List ℕ) (hmem : ∀ i ∈ l, i < len)
    (hsort : l.Pairwise (· < ·)) :
    (l.map (fun i : ℕ => (10 : ℚ) +
      ((round ((i : ℚ) / (len : ℚ) * 40) : ℤ) : ℚ))).Sorted (· ≤ ·) ∧
    ∀ v ∈ l.map (fun i : ℕ => (10 : ℚ) +
        ((round ((i : ℚ) / (len : ℚ) * 40) : ℤ) : ℚ)),
      10 ≤ v ∧ v ≤ 50 ∧ v.den = 1 := by
  constructor
  · refine List.Pairwise.map _ ?_ hsort
    intro a b hab
    have harg : (a : ℚ) / (len : ℚ) * 40 ≤ (b : ℚ) / (len : ℚ) * 40 := by
      have h1 : ((a : ℕ) : ℚ) ≤ ((b : ℕ) : ℚ) := by exact_mod_cast hab.le
      exact mul_le_mul_of_nonneg_right
        (div_le_div_of_nonneg_right h1 (Nat.cast_nonneg len)) (by norm_num)
    have h2 : ((round ((a : ℚ) / (len : ℚ) * 40) : ℤ) : ℚ) ≤
        ((round ((b : ℚ) / (len : ℚ) * 40) : ℤ) : ℚ) := by
      exact_mod_cast round_mono_q harg
    linarith
  · intro v hv
    rcases List.mem_map.1 hv with ⟨i, hi, rfl⟩
    have hilen := hmem i hi
    have hlenpos : (0 : ℚ) < (len : ℚ) := by exact_mod_cast (by omega : 0 < len)
    refine ⟨?_, ?_, ?_⟩
    · have harg : (0 : ℚ) ≤ (i : ℚ) / (len : ℚ) * 40 := by positivity
      have h := round_mono_q harg
      rw [round_zero] at h
      have h2 : (0 : ℚ) ≤ ((round ((i : ℚ) / (len : ℚ) * 40) : ℤ) : ℚ) := by
        exact_mod_cast h
      linarith
    · have harg : (i : ℚ) / (len : ℚ) * 40 ≤ 40 := by
        have hd : (i : ℚ) / (len : ℚ) ≤ 1 := by
          rw [div_le_one hlenpos]
          exact_mod_cast hilen.le
        calc (i : ℚ) / (len : ℚ) * 40 ≤ 1 * 40 :=
              mul_le_mul_of_nonneg_right hd (by norm_num)
          _ = 40 := by norm_num
      have h := round_mono_q harg
      rw [round_forty] at h
      have h2 : ((round ((i : ℚ) / (len : ℚ) * 40) : ℤ) : ℚ) ≤ 40 := by
        exact_mod_cast h
      linarith
    · have heq : (10 : ℚ) + ((round ((i : ℚ) / (len : ℚ) * 40) : ℤ) : ℚ) =
          (((10 + round ((i : ℚ) / (len : ℚ) * 40) : ℤ)) : ℚ) := by
        push_cast
        ring
      rw [heq]
      exact Rat.den_intCast _

/-- C8 (amended): on every run, the progress values are monotonically
non-decreasing and lie in `[0, 100]`; on the `silence` and `vad_clustering`
paths they are integers; the `vad_clustering` path ends by reporting 100,
but the `silence` path's final callback can report less than 100 (see the
counterexample), and the `silence_f0` path's first-phase values are halved
integers, so they need not be integers. -/
theorem progress_monotone_bounded (buf : AudioBuffer) (params : Params) :
    ((segmentBySilence buf params).2.Sorted (· ≤ ·) ∧
      ∀ v ∈ (segmentBySilence buf params).2, 0 ≤ v ∧ v ≤ 100 ∧ v.den = 1) ∧
    ((segmentBySilenceAndF0 buf params).2.Sorted (· ≤ ·) ∧
      ∀ v ∈ (segmentBySilenceAndF0 buf params).2, 0 ≤ v ∧ v ≤ 100) ∧
    ((segmentByVADClustering buf params).2.Sorted (· ≤ ·) ∧
      (∀ v ∈ (segmentByVADClustering buf params).2, 0 ≤ v ∧ v ≤ 100 ∧ v.den = 1) ∧
      (segmentByVADClustering buf params).2.getLast? = some 100) := by
  obtain ⟨hs, hb⟩ := segmentBySilence_progress buf params
  refine ⟨⟨hs, hb⟩, ?_, ?_⟩
  · have hlog : (segmentBySilenceAndF0 buf params).2 =
        (segmentBySilence buf params).2.map (· * (1/2)) ++
        (List.range (segmentBySilence buf params).1.length).map
          (fun i : ℕ => 50 + ((round ((i : ℚ) /
            (((segmentBySilence buf params).1.length : ℕ) : ℚ) * 50) : ℤ) : ℚ)) :=
      rfl
    obtain ⟨h2s, h2b⟩ := f0Log2_props (segmentBySilence buf params).1.length
    rw [hlog]
    constructor
    · refine List.pairwise_append.2 ⟨?_, h2s, ?_⟩
      · refine List.Pairwise.map _ ?_ hs
        intro a b hab
        linarith
      · intro a ha b hb'
        rcases List.mem_map.1 ha with ⟨w, hw, rfl⟩
        have hw100 := (hb w hw).2.1
        have hb50 := (h2b b hb').1
        linarith
    · intro v hv
      rcases List.mem_append.1 hv with hv | hv
      · rcases List.mem_map.1 hv with ⟨w, hw, rfl⟩
        obtain ⟨h0, h100, -⟩ := hb w hw
        constructor <;> linarith
      · obtain ⟨h50, h100⟩ := h2b v hv
        constructor <;> linarith
  · have hlog : (segmentByVADClustering buf params).2 =
        [10] ++ ((frameStarts buf.samples.length (⌊buf.sampleRate / 40⌋).toNat
            (⌊buf.sampleRate / 100⌋).toNat).filter (fun i => i % 10000 = 0)).map
          (fun i : ℕ => 10 + ((round ((i : ℚ) /
            ((buf.samples.length : ℕ) : ℚ) * 40) : ℤ) : ℚ)) ++
        [50, 100] := rfl
    have hmem : ∀ i ∈ (frameStarts buf.samples.length
        (⌊buf.sampleRate / 40⌋).toNat (⌊buf.sampleRate / 100⌋).toNat).filter
          (fun i => i % 10000 = 0), i < buf.samples.length := by
      intro i hi
      have h1 := List.mem_of_mem_filter hi
      have h2 := List.mem_of_mem_filter h1
      exact List.mem_range.1 h2
    have hsorted : ((frameStarts buf.samples.length
        (⌊buf.sampleRate / 40⌋).toNat (⌊buf.sampleRate / 100⌋).toNat).filter
          (fun i => i % 10000 = 0)).Pairwise (· < ·) :=
      (((List.pairwise_lt_range buf.samples.length).sublist
        (List.filter_sublist _)).sublist (List.filter_sublist _))
    obtain ⟨hes, heb⟩ := vadEntries_props buf.samples.length _ hmem hsorted
    rw [hlog]
    refine ⟨?_, ?_, ?_⟩
    · refine List.pairwise_append.2
        ⟨List.pairwise_append.2 ⟨by simp, hes, ?_⟩, by norm_num, ?_⟩
      · intro a ha b hb'
        rcases List.mem_singleton.1 ha with rfl
        exact (heb b hb').1
      · intro a ha b hb'
        have ha50 : a ≤ 50 := by
          rcases List.mem_append.1 ha with ha | ha
          · rcases List.mem_singleton.1 ha with rfl
            norm_num
          · exact (heb a ha).2.1
        have h50b : (50 : ℚ) ≤ b := by
          rcases List.mem_cons.1 hb' with rfl | hb2
          · norm_num
          · rcases List.mem_singleton.1 hb2 with rfl
            norm_num
        linarith
    · intro v hv
      rcases List.mem_append.1 hv with hv | hv
      · rcases List.mem_append.1 hv with hv | hv
        · rcases List.mem_singleton.1 hv with rfl
          refine ⟨by norm_num, by norm_num, rfl⟩
        · obtain ⟨h10, h50, hden⟩ := heb v hv
          exact ⟨by linarith, by linarith, hden⟩
      · rcases List.mem_cons.1 hv with rfl | hv2
        · refine ⟨by norm_num, by norm_num, rfl⟩
        · rcases List.mem_singleton.1 hv2 with rfl
          refine ⟨by norm_num, by norm_num, rfl⟩
    · rw [List.getLast?_append]
      rfl

/-- C8 counterexample: on a 5-sample buffer the silence path's only progress
callback reports 0, and the run completes without any callback reporting
100 — refuting "the final callback reports 100 before completion". -/
theorem progress_no_final_hundred_counterexample :
    (segmentBySilence ⟨[1, 0, 0, 0, 0], 1⟩ ⟨1/2, 0, 500, 2, 75, 300, 1/4⟩).2 =
      [0] ∧
    (segmentBySilence ⟨[1, 0, 0, 0, 0], 1⟩
      ⟨1/2, 0, 500, 2, 75, 300, 1/4⟩).2.getLast? ≠ some 100 := by
  have h : (segmentBySilence ⟨[1, 0, 0, 0, 0], 1⟩
      ⟨1/2, 0, 500, 2, 75, 300, 1/4⟩).2 = [0] := by
    norm_num [segmentBySilence, segmentBySilenceWith, silScan, silStep]
  refine ⟨h, ?_⟩
  rw [h]
  intro hcontra
  simp only [List.getLast?_singleton, Option.some.injEq] at hcontra
  norm_num at hcontra

end OpenTranscriber
